import Mathlib

/-!
Gridworld navigation with a SARSA agent

A shallow embedding of `Gridworld_navigation_with_SARSA_method.cpp`.

* C++ `int` values are `Int`; `/` and `%` are the truncating `Int.tdiv` and
  `Int.tmod`.  Every value that occurs lies in `[0, 24]`, far from overflow.
* C++ `float` values are idealised as exact rationals (`ℚ`), the literal
  `0.99f` as `99 / 100`.  Where the rounding of the `float` operations decides
  a property, `updateQTableRnd` takes the rounding as a parameter: every
  operation returns the rounding of its exact result; `roundFloat` is the
  rounding of binary32 (to nearest, ties to even) on the finite range.
* `std::vector<std::vector<float>>` is a `List (List ℚ)`; indexing outside the
  vector (undefined behaviour in C++) is the failure `none`.
* The generator `rng` is not part of the agent state: each call of a
  distribution on it is an explicit input (`u` for the real draw in `[0, 1)`,
  `r` for the integer draw in `{0, 1, 2, 3}`).
* Methods that are not `const` return the agent after the call.
-/

namespace Gridworld

/-- The gridworld size, `const int GRID_SIZE = 5`. -/
abbrev GRID_SIZE : Int := 5

/-- The data members of `class SARSA` apart from the generator. -/
structure SARSA where
  qTable : List (List ℚ)
  alpha : ℚ
  gamma : ℚ
  epsilon : ℚ

/-- The constructor `SARSA(alpha, gamma, epsilon)`: the table is resized to
`GRID_SIZE` rows of `GRID_SIZE` zeros. -/
def SARSA.new (alpha gamma epsilon : ℚ) : SARSA :=
  { qTable := List.replicate GRID_SIZE.toNat (List.replicate GRID_SIZE.toNat 0)
    alpha := alpha
    gamma := gamma
    epsilon := epsilon }

/-- The read `qTable[row][col]`: `none` when an index is outside its vector. -/
def readCell (t : List (List ℚ)) (row col : Int) : Option ℚ :=
  if 0 ≤ row ∧ 0 ≤ col then
    match t[row.toNat]? with
    | some cells => cells[col.toNat]?
    | none => none
  else none

/-- The compound assignment `qTable[row][col] += d`: `none` when an index is
outside its vector. -/
def addToCell (t : List (List ℚ)) (row col : Int) (d : ℚ) : Option (List (List ℚ)) :=
  if 0 ≤ row ∧ 0 ≤ col then
    match t[row.toNat]? with
    | some cells =>
      match cells[col.toNat]? with
      | some x => some (t.set row.toNat (cells.set col.toNat (x + d)))
      | none => none
    | none => none
  else none

/-- The method `SARSA::getNextState`: the switch has no default, so any other action
leaves both coordinates as they are. -/
def getNextState (state action : Int) : Int :=
  let row := state.tdiv GRID_SIZE
  let col := state.tmod GRID_SIZE
  if action = 0 then max (row - 1) 0 * GRID_SIZE + col
  else if action = 1 then min (row + 1) (GRID_SIZE - 1) * GRID_SIZE + col
  else if action = 2 then row * GRID_SIZE + max (col - 1) 0
  else if action = 3 then row * GRID_SIZE + min (col + 1) (GRID_SIZE - 1)
  else row * GRID_SIZE + col

/-- The body of the `for` loop of `SARSA::getBestAction`, run over the
remaining values of `action`, carrying `(bestAction, bestValue)`. -/
def getBestActionLoop (t : List (List ℚ)) (state : Int) :
    List Int → Int × ℚ → Option (Int × ℚ)
  | [], best => some best
  | action :: rest, (bestAction, bestValue) =>
    let nextState := getNextState state action
    match readCell t (nextState.tdiv GRID_SIZE) (nextState.tmod GRID_SIZE) with
    | some value =>
      if value > bestValue then getBestActionLoop t state rest (action, value)
      else getBestActionLoop t state rest (bestAction, bestValue)
    | none => none

/-- The method `SARSA::getBestAction`: `bestAction = 0`, `bestValue` is the entry of
`state` itself, and the loop runs over `action = 1, 2, 3`. -/
def getBestAction (ag : SARSA) (state : Int) : Option Int :=
  match readCell ag.qTable (state.tdiv GRID_SIZE) (state.tmod GRID_SIZE) with
  | some bestValue =>
    match getBestActionLoop ag.qTable state [1, 2, 3] (0, bestValue) with
    | some best => some best.1
    | none => none
  | none => none

/-- The method `SARSA::chooseAction`, with the real draw `u` and the integer draw `r` as
inputs; it returns the action and the agent after the call. -/
def chooseAction (ag : SARSA) (state : Int) (u : ℚ) (r : Int) : Option (Int × SARSA) :=
  if u < ag.epsilon then some (r, ag)
  else
    match getBestAction ag state with
    | some a => some (a, ag)
    | none => none

/-- The method `SARSA::updateQTable`: two reads, then `+=` on the entry of `state`. -/
def updateQTable (ag : SARSA) (state _action : Int) (reward : ℚ)
    (nextState _nextAction : Int) : Option SARSA :=
  match readCell ag.qTable (state.tdiv GRID_SIZE) (state.tmod GRID_SIZE) with
  | some qValue =>
    match readCell ag.qTable (nextState.tdiv GRID_SIZE) (nextState.tmod GRID_SIZE) with
    | some nextQValue =>
      match addToCell ag.qTable (state.tdiv GRID_SIZE) (state.tmod GRID_SIZE)
          (ag.alpha * (reward + ag.gamma * nextQValue - qValue)) with
      | some t => some { ag with qTable := t }
      | none => none
    | none => none
  | none => none

/-- The method `SARSA::decayExplorationRate`: `epsilon *= 0.99f`. -/
def decayExplorationRate (ag : SARSA) : SARSA :=
  { ag with epsilon := ag.epsilon * (99 / 100) }

/-- One pass through the body of the `while` loop of `main`, with the draws
of its `chooseAction` call as inputs. -/
def stepLoopBody (ag : SARSA) (state action : Int) (u : ℚ) (r : Int) :
    Option (SARSA × Int × Int) :=
  let nextState := getNextState state action
  let reward : ℚ := if nextState = GRID_SIZE * GRID_SIZE - 1 then 1 else 0
  match chooseAction ag nextState u r with
  | some (nextAction, ag1) =>
    match updateQTable ag1 state action reward nextState nextAction with
    | some ag2 => some (ag2, nextState, nextAction)
    | none => none
  | none => none

/-- The `while (state != GRID_SIZE * GRID_SIZE - 1)` loop of `main`, run for at
most as many passes as there are draws; the result is the agent, state and
action reached. -/
def whileLoop (ag : SARSA) (state action : Int) :
    List (ℚ × Int) → Option (SARSA × Int × Int)
  | [] => some (ag, state, action)
  | (u, r) :: draws =>
    if state ≠ GRID_SIZE * GRID_SIZE - 1 then
      match stepLoopBody ag state action u r with
      | some (ag1, state1, action1) => whileLoop ag1 state1 action1 draws
      | none => none
    else some (ag, state, action)

/-- The table has `GRID_SIZE` rows of `GRID_SIZE` entries, as after
construction. -/
def TableShape (t : List (List ℚ)) : Prop :=
  t.length = 5 ∧ ∀ cells ∈ t, cells.length = 5

/-- A state is valid when it names a grid cell. -/
def ValidState (s : Int) : Prop := 0 ≤ s ∧ s < 25

/-- An action is valid when it is one of the four moves. -/
def ValidAction (a : Int) : Prop := 0 ≤ a ∧ a < 4

/-- The tabled value of a state, `0` outside the table. -/
def valueOf (t : List (List ℚ)) (s : Int) : ℚ :=
  (readCell t (s.tdiv GRID_SIZE) (s.tmod GRID_SIZE)).getD 0

instance (s : Int) : Decidable (ValidState s) := by unfold ValidState; infer_instance
instance (a : Int) : Decidable (ValidAction a) := by unfold ValidAction; infer_instance

/-- The agent of `main`: `SARSA agent(0.5f, 0.9f, 0.1f)`. -/
def mainAgent : SARSA := SARSA.new (1 / 2) (9 / 10) (1 / 10)

/-- The table of `mainAgent` after its first rewarded update, a move Right
from state 23 into the terminal state 24: only the entry of state 23 is set. -/
def rewardedTable : List (List ℚ) :=
  [[0, 0, 0, 0, 0], [0, 0, 0, 0, 0], [0, 0, 0, 0, 0], [0, 0, 0, 0, 0], [0, 0, 0, 1 / 2, 0]]

/-- A table in which the four neighbours 7, 11, 13 and 17 of state 12 hold the
same value and every other entry is zero. -/
def ringTable : List (List ℚ) :=
  [[0, 0, 0, 0, 0], [0, 0, 1 / 2, 0, 0], [0, 1 / 2, 0, 1 / 2, 0], [0, 0, 1 / 2, 0, 0],
    [0, 0, 0, 0, 0]]

/-- The reward expression of the step loop of `main`:
`(nextState == GRID_SIZE * GRID_SIZE - 1) ? 1.0f : 0.0f`. -/
def rewardOf (nextState : Int) : ℚ :=
  if nextState = GRID_SIZE * GRID_SIZE - 1 then 1 else 0

/-- The continuation test of the step loop of `main`:
`state != GRID_SIZE * GRID_SIZE - 1`. -/
def loopContinues (state : Int) : Bool :=
  decide (state ≠ GRID_SIZE * GRID_SIZE - 1)

/-- The draws that one episode of `main` consumes: the start state, the two
draws of the first `chooseAction`, and the draws of the `chooseAction` calls of
the passes of the step loop. -/
structure EpisodeDraws where
  start : Int
  first : ℚ × Int
  steps : List (ℚ × Int)

/-- The episode loop of `main`, one episode for each element of the list
(`numEpisodes` of them in `main`).  The flag is `false` when the step loop of
an episode has not left its state at the terminal one within the draws given;
the episodes after it are then not run. -/
def mainLoop (ag : SARSA) : List EpisodeDraws → Option (SARSA × Bool)
  | [] => some (ag, true)
  | d :: rest =>
    match chooseAction ag d.start d.first.1 d.first.2 with
    | some (action, ag1) =>
      match whileLoop ag1 d.start action d.steps with
      | some (ag2, state, _) =>
        if state ≠ GRID_SIZE * GRID_SIZE - 1 then some (ag2, false)
        else mainLoop (decayExplorationRate ag2) rest
      | none => none
    | none => none

/-- The number of episodes of `main`, `const int numEpisodes = 100`. -/
def numEpisodes : Nat := 100

/-- The draws of an episode are in range: the start state is a grid cell and
every integer draw is one of the four moves. -/
def ValidDraws (d : EpisodeDraws) : Prop :=
  ValidState d.start ∧ ValidAction d.first.2 ∧ ∀ x ∈ d.steps, ValidAction x.2

/-- The predicate on tables "every entry is in `[0, 1]` and the entry of state
24 is 0". -/
def TableBounded (t : List (List ℚ)) : Prop :=
  (∀ s : Int, 0 ≤ valueOf t s ∧ valueOf t s ≤ 1) ∧ valueOf t 24 = 0

/-- The learning rate is in `(0, 1)`, the discount is not negative and no
table entry is negative. -/
def NonNegAgent (ag : SARSA) : Prop :=
  0 < ag.alpha ∧ ag.alpha < 1 ∧ 0 ≤ ag.gamma ∧ ∀ s : Int, 0 ≤ valueOf ag.qTable s

/-- One of the two predecessors 19 and 23 of the terminal state has a
positive table entry. -/
def GoalSeen (ag : SARSA) : Prop :=
  0 < valueOf ag.qTable 19 ∨ 0 < valueOf ag.qTable 23

/-- An episode that starts at state 23 and moves Right, with both real draws
below any positive exploration rate. -/
def sampleEpisode : EpisodeDraws :=
  { start := 23, first := (0, 3), steps := [(0, 3)] }

/-- An episode that starts at the terminal state: its step loop makes no
pass. -/
def terminalStartEpisode : EpisodeDraws :=
  { start := 24, first := (1 / 2, 0), steps := [] }

/-- Rounding to the nearest integer, ties to the even one. -/
def roundHalfEven (y : ℚ) : Int :=
  if y - ⌊y⌋ < 1 / 2 then ⌊y⌋
  else if 1 / 2 < y - ⌊y⌋ then ⌊y⌋ + 1
  else if ⌊y⌋ % 2 = 0 then ⌊y⌋ else ⌊y⌋ + 1

/-- The spacing of the binary32 numbers around a positive `x`: 24 significant
bits, the exponent not below that of the smallest normal number. -/
def floatUlp (x : ℚ) : ℚ := 2 ^ (max (Int.log 2 x) (-126) - 23)

/-- The binary32 rounding of a value that is not negative. -/
def roundMagnitude (x : ℚ) : ℚ := roundHalfEven (x / floatUlp x) * floatUlp x

/-- The rounding of C++ `float` (IEEE 754 binary32, to nearest, ties to even)
of an exact value; overflow to infinity is outside the model. -/
def roundFloat (x : ℚ) : ℚ :=
  if 0 ≤ x then roundMagnitude x else -roundMagnitude (-x)

/-- The compound assignment `qTable[row][col] += d` on `float`: the stored
value is the rounding of the exact sum. -/
def addToCellRnd (rnd : ℚ → ℚ) (t : List (List ℚ)) (row col : Int) (d : ℚ) :
    Option (List (List ℚ)) :=
  if 0 ≤ row ∧ 0 ≤ col then
    match t[row.toNat]? with
    | some cells =>
      match cells[col.toNat]? with
      | some x => some (t.set row.toNat (cells.set col.toNat (rnd (x + d))))
      | none => none
    | none => none
  else none

/-- The method `SARSA::updateQTable` with the rounding of `float` explicit: each
of `gamma * nextQValue`, `reward + ...`, `... - qValue`, `alpha * (...)` and
`+=` returns the rounding `rnd` of its exact result. -/
def updateQTableRnd (rnd : ℚ → ℚ) (ag : SARSA) (state _action : Int) (reward : ℚ)
    (nextState _nextAction : Int) : Option SARSA :=
  match readCell ag.qTable (state.tdiv GRID_SIZE) (state.tmod GRID_SIZE) with
  | some qValue =>
    match readCell ag.qTable (nextState.tdiv GRID_SIZE) (nextState.tmod GRID_SIZE) with
    | some nextQValue =>
      match addToCellRnd rnd ag.qTable (state.tdiv GRID_SIZE) (state.tmod GRID_SIZE)
          (rnd (ag.alpha * rnd (rnd (reward + rnd (ag.gamma * nextQValue)) - qValue))) with
      | some t => some { ag with qTable := t }
      | none => none
    | none => none
  | none => none

/-- A table in which the entry of state 23 is `1 - 2^-24`, the largest binary32
number below 1, and every other entry is zero. -/
def nearOneTable : List (List ℚ) :=
  [[0, 0, 0, 0, 0], [0, 0, 0, 0, 0], [0, 0, 0, 0, 0], [0, 0, 0, 0, 0],
    [0, 0, 0, 16777215 / 16777216, 0]]

theorem coords_of_valid {s : Int} (h : ValidState s) :
    0 ≤ s.tdiv GRID_SIZE ∧ s.tdiv GRID_SIZE < 5 ∧ 0 ≤ s.tmod GRID_SIZE ∧ s.tmod GRID_SIZE < 5 := by
  obtain ⟨h0, h1⟩ := h
  rw [Int.tdiv_eq_ediv h0 (by decide), Int.tmod_eq_emod h0 (by decide)]
  simp only [GRID_SIZE]
  omega

theorem readCell_of_shape {t : List (List ℚ)} (ht : TableShape t) {row col : Int}
    (hr0 : 0 ≤ row) (hr : row < 5) (hc0 : 0 ≤ col) (hc : col < 5) :
    ∃ v, readCell t row col = some v := by
  have hrn : row.toNat < t.length := by rw [ht.1]; omega
  have hlen : (t[row.toNat]).length = 5 := ht.2 _ (List.getElem_mem _)
  have hcn : col.toNat < (t[row.toNat]).length := by rw [hlen]; omega
  refine ⟨(t[row.toNat])[col.toNat], ?_⟩
  simp [readCell, hr0, hc0, List.getElem?_eq_getElem hrn, List.getElem?_eq_getElem hcn]

theorem readCell_valid {t : List (List ℚ)} (ht : TableShape t) {s : Int} (hs : ValidState s) :
    readCell t (s.tdiv GRID_SIZE) (s.tmod GRID_SIZE) = some (valueOf t s) := by
  obtain ⟨a, b, c, d⟩ := coords_of_valid hs
  obtain ⟨v, hv⟩ := readCell_of_shape ht a b c d
  simp [valueOf, hv]

theorem addToCell_eq_some {t t1 : List (List ℚ)} {row col : Int} {d : ℚ}
    (h : addToCell t row col d = some t1) :
    ∃ cells x, 0 ≤ row ∧ 0 ≤ col ∧ t[row.toNat]? = some cells ∧ cells[col.toNat]? = some x ∧
      t1 = t.set row.toNat (cells.set col.toNat (x + d)) := by
  unfold addToCell at h
  split at h
  · rename_i hrc
    split at h
    · rename_i cells hcells
      split at h
      · rename_i x hx
        exact ⟨cells, x, hrc.1, hrc.2, hcells, hx, (Option.some.inj h).symm⟩
      · exact absurd h (by simp)
    · exact absurd h (by simp)
  · exact absurd h (by simp)

theorem addToCell_of_shape {t : List (List ℚ)} (ht : TableShape t) {row col : Int}
    (hr0 : 0 ≤ row) (hr : row < 5) (hc0 : 0 ≤ col) (hc : col < 5) (d : ℚ) :
    ∃ t1, addToCell t row col d = some t1 := by
  have hrn : row.toNat < t.length := by rw [ht.1]; omega
  have hlen : (t[row.toNat]).length = 5 := ht.2 _ (List.getElem_mem _)
  have hcn : col.toNat < (t[row.toNat]).length := by rw [hlen]; omega
  simp [addToCell, hr0, hc0, List.getElem?_eq_getElem hrn, List.getElem?_eq_getElem hcn]

theorem addToCell_shape {t t1 : List (List ℚ)} {row col : Int} {d : ℚ}
    (ht : TableShape t) (h : addToCell t row col d = some t1) : TableShape t1 := by
  obtain ⟨cells, x, -, -, hcells, -, rfl⟩ := addToCell_eq_some h
  refine ⟨by rw [List.length_set]; exact ht.1, ?_⟩
  intro l hl
  rcases List.mem_or_eq_of_mem_set hl with hmem | rfl
  · exact ht.2 l hmem
  · rw [List.length_set]
    exact ht.2 cells (List.getElem?_mem hcells)

theorem addToCell_read_same {t t1 : List (List ℚ)} {row col : Int} {d : ℚ}
    (h : addToCell t row col d = some t1) :
    ∃ x, readCell t row col = some x ∧ readCell t1 row col = some (x + d) := by
  obtain ⟨cells, x, hr0, hc0, hcells, hx, rfl⟩ := addToCell_eq_some h
  have hrn : row.toNat < t.length := by
    by_contra hcon
    rw [List.getElem?_eq_none_iff.mpr (not_lt.mp hcon)] at hcells
    exact absurd hcells (by simp)
  have hcn : col.toNat < cells.length := by
    by_contra hcon
    rw [List.getElem?_eq_none_iff.mpr (not_lt.mp hcon)] at hx
    exact absurd hx (by simp)
  refine ⟨x, ?_, ?_⟩
  · simp [readCell, hr0, hc0, hcells, hx]
  · simp [readCell, hr0, hc0, List.getElem?_set_self hrn, List.getElem?_set_self hcn]

theorem addToCell_read_other {t t1 : List (List ℚ)} {row col : Int} {d : ℚ}
    (h : addToCell t row col d = some t1) (r c : Int) (hne : ¬ (r = row ∧ c = col)) :
    readCell t1 r c = readCell t r c := by
  obtain ⟨cells, x, hr0, hc0, hcells, hx, rfl⟩ := addToCell_eq_some h
  unfold readCell
  by_cases hrc : 0 ≤ r ∧ 0 ≤ c
  · simp only [hrc, and_self, if_true]
    by_cases hrow : r = row
    · subst hrow
      have hcol : col.toNat ≠ c.toNat := by
        intro hcon
        apply hne
        refine ⟨rfl, ?_⟩
        have := hrc.2
        omega
      have hrn : r.toNat < t.length := by
        by_contra hcon
        rw [List.getElem?_eq_none_iff.mpr (not_lt.mp hcon)] at hcells
        exact absurd hcells (by simp)
      rw [List.getElem?_set_self hrn, hcells]
      simp only
      exact List.getElem?_set_ne hcol
    · have hrow2 : row.toNat ≠ r.toNat := by
        intro hcon
        apply hrow
        have := hrc.1
        omega
      rw [List.getElem?_set_ne hrow2]
  · simp only [hrc, if_false]

/-! ## The transition function -/

theorem getNextState_valid {s : Int} (hs : ValidState s) (a : Int) :
    ValidState (getNextState s a) := by
  obtain ⟨h0, h1⟩ := hs
  unfold getNextState
  split_ifs <;> interval_cases s <;> decide

/-- C1: for a valid state `s` and an action `a` in `{0,1,2,3}`, `getNextState s a`
is `r1 * 5 + c1` where `(r, c) = (s / 5, s % 5)` and `(r1, c1)` is
`(max (r-1) 0, c)` for Up, `(min (r+1) 4, c)` for Down, `(r, max (c-1) 0)` for
Left and `(r, min (c+1) 4)` for Right; the result decodes to `(r1, c1)`; and a
move that is not against a boundary yields `s-5`, `s+5`, `s-1`, `s+1`. -/
theorem getNextState_spec (s a : Int) (hs : ValidState s) (ha : ValidAction a) :
    (getNextState s a =
      (if a = 0 then max (s / 5 - 1) 0 else if a = 1 then min (s / 5 + 1) 4 else s / 5) * 5 +
      (if a = 2 then max (s % 5 - 1) 0 else if a = 3 then min (s % 5 + 1) 4 else s % 5)) ∧
    (getNextState s a / 5 =
      (if a = 0 then max (s / 5 - 1) 0 else if a = 1 then min (s / 5 + 1) 4 else s / 5)) ∧
    (getNextState s a % 5 =
      (if a = 2 then max (s % 5 - 1) 0 else if a = 3 then min (s % 5 + 1) 4 else s % 5)) ∧
    (a = 0 → 0 < s / 5 → getNextState s a = s - 5) ∧
    (a = 1 → s / 5 < 4 → getNextState s a = s + 5) ∧
    (a = 2 → 0 < s % 5 → getNextState s a = s - 1) ∧
    (a = 3 → s % 5 < 4 → getNextState s a = s + 1) := by
  obtain ⟨h0, h1⟩ := hs
  obtain ⟨a0, a1⟩ := ha
  interval_cases a <;> interval_cases s <;> decide

theorem getNextState_spec_witness :
    ValidState 12 ∧ ValidAction 0 ∧ getNextState 12 0 = 12 - 5 :=
  ⟨by decide, by decide,
    (getNextState_spec 12 0 (by decide) (by decide)).2.2.2.1 rfl (by decide)⟩

/-- C7: for a valid state `s` and an action `a` in `{0,1,2,3}`, `getNextState s a = s`
exactly when the move is against a boundary (Up in row 0, Down in row 4, Left
in column 0, Right in column 4); in particular the corner cases of states 0
and 24. -/
theorem getNextState_eq_self_iff (s a : Int) (hs : ValidState s) (ha : ValidAction a) :
    (getNextState s a = s ↔
      (a = 0 ∧ s / 5 = 0) ∨ (a = 1 ∧ s / 5 = 4) ∨ (a = 2 ∧ s % 5 = 0) ∨ (a = 3 ∧ s % 5 = 4)) ∧
    getNextState 0 0 = 0 ∧ getNextState 0 2 = 0 ∧
    getNextState 24 1 = 24 ∧ getNextState 24 3 = 24 := by
  obtain ⟨h0, h1⟩ := hs
  obtain ⟨a0, a1⟩ := ha
  interval_cases a <;> interval_cases s <;> decide

theorem getNextState_eq_self_iff_witness :
    ValidState 4 ∧ ValidAction 3 ∧ getNextState 4 3 = 4 :=
  ⟨by decide, by decide,
    (getNextState_eq_self_iff 4 3 (by decide) (by decide)).1.mpr (by decide)⟩

/-! ## Greedy action selection -/

theorem getBestAction_eq {ag : SARSA} (ht : TableShape ag.qTable) {s : Int} (hs : ValidState s) :
    getBestAction ag s = some
      (if valueOf ag.qTable (getNextState s 1) > valueOf ag.qTable s then
        (if valueOf ag.qTable (getNextState s 2) > valueOf ag.qTable (getNextState s 1) then
          (if valueOf ag.qTable (getNextState s 3) > valueOf ag.qTable (getNextState s 2)
            then 3 else 2)
         else
          (if valueOf ag.qTable (getNextState s 3) > valueOf ag.qTable (getNextState s 1)
            then 3 else 1))
       else
        (if valueOf ag.qTable (getNextState s 2) > valueOf ag.qTable s then
          (if valueOf ag.qTable (getNextState s 3) > valueOf ag.qTable (getNextState s 2)
            then 3 else 2)
         else
          (if valueOf ag.qTable (getNextState s 3) > valueOf ag.qTable s then 3 else 0))) := by
  unfold getBestAction
  rw [readCell_valid ht hs]
  simp only [getBestActionLoop, readCell_valid ht (getNextState_valid hs _)]
  split_ifs <;> rfl

theorem getBestAction_valid {ag : SARSA} (ht : TableShape ag.qTable) {s : Int}
    (hs : ValidState s) : ∃ a, getBestAction ag s = some a ∧ ValidAction a := by
  refine ⟨_, getBestAction_eq ht hs, ?_⟩
  split_ifs <;> decide

/-! ## The update rule -/

theorem coords_ne_of_ne {s s1 : Int} (h : s ≠ s1) :
    ¬ (s.tdiv GRID_SIZE = s1.tdiv GRID_SIZE ∧ s.tmod GRID_SIZE = s1.tmod GRID_SIZE) := by
  rintro ⟨hd, hm⟩
  apply h
  rw [← Int.tdiv_add_tmod s GRID_SIZE, ← Int.tdiv_add_tmod s1 GRID_SIZE, hd, hm]

theorem updateQTable_eq_some {ag ag1 : SARSA} {state action nextState nextAction : Int}
    {reward : ℚ} (h : updateQTable ag state action reward nextState nextAction = some ag1) :
    ∃ qValue nextQValue t,
      readCell ag.qTable (state.tdiv GRID_SIZE) (state.tmod GRID_SIZE) = some qValue ∧
      readCell ag.qTable (nextState.tdiv GRID_SIZE) (nextState.tmod GRID_SIZE) =
        some nextQValue ∧
      addToCell ag.qTable (state.tdiv GRID_SIZE) (state.tmod GRID_SIZE)
        (ag.alpha * (reward + ag.gamma * nextQValue - qValue)) = some t ∧
      ag1 = { ag with qTable := t } := by
  unfold updateQTable at h
  split at h
  · rename_i qValue hq
    split at h
    · rename_i nextQValue hn
      split at h
      · rename_i t ht
        exact ⟨qValue, nextQValue, t, hq, hn, ht, (Option.some.inj h).symm⟩
      · exact absurd h (by simp)
    · exact absurd h (by simp)
  · exact absurd h (by simp)

theorem updateQTable_of_shape {ag : SARSA} (ht : TableShape ag.qTable) {state nextState : Int}
    (hs : ValidState state) (hn : ValidState nextState) (action nextAction : Int) (reward : ℚ) :
    ∃ ag1, updateQTable ag state action reward nextState nextAction = some ag1 ∧
      TableShape ag1.qTable ∧ ag1.alpha = ag.alpha ∧ ag1.gamma = ag.gamma ∧
      ag1.epsilon = ag.epsilon ∧
      valueOf ag1.qTable state = valueOf ag.qTable state +
        ag.alpha * (reward + ag.gamma * valueOf ag.qTable nextState - valueOf ag.qTable state) := by
  obtain ⟨a, b, c, d⟩ := coords_of_valid hs
  obtain ⟨t, hadd⟩ := addToCell_of_shape ht a b c d
    (ag.alpha * (reward + ag.gamma * valueOf ag.qTable nextState - valueOf ag.qTable state))
  refine ⟨{ ag with qTable := t }, ?_, addToCell_shape ht hadd, rfl, rfl, rfl, ?_⟩
  · simp only [updateQTable, readCell_valid ht hs, readCell_valid ht hn, hadd]
  · obtain ⟨x, hx, hx1⟩ := addToCell_read_same hadd
    rw [readCell_valid ht hs] at hx
    have hx2 : valueOf ag.qTable state = x := Option.some.inj hx
    simp only [valueOf, hx1, Option.getD_some]
    rw [← hx2]
    rfl

/-! ## Concrete tables -/

theorem tableShape_of_rows {a b c d e : List ℚ} (ha : a.length = 5) (hb : b.length = 5)
    (hc : c.length = 5) (hd : d.length = 5) (he : e.length = 5) :
    TableShape [a, b, c, d, e] := by
  refine ⟨rfl, ?_⟩
  intro l hl
  simp only [List.mem_cons, List.mem_singleton, List.not_mem_nil, or_false] at hl
  rcases hl with rfl | rfl | rfl | rfl | rfl <;> assumption

theorem mainAgent_shape : TableShape mainAgent.qTable :=
  tableShape_of_rows rfl rfl rfl rfl rfl

theorem rewardedTable_shape : TableShape rewardedTable :=
  tableShape_of_rows rfl rfl rfl rfl rfl

theorem ringTable_shape : TableShape ringTable :=
  tableShape_of_rows rfl rfl rfl rfl rfl

theorem mainAgent_first_reward :
    updateQTable mainAgent 23 3 1 24 0 = some { mainAgent with qTable := rewardedTable } := by
  have h : updateQTable mainAgent 23 3 1 24 0 = some { mainAgent with qTable :=
      [[0, 0, 0, 0, 0], [0, 0, 0, 0, 0], [0, 0, 0, 0, 0], [0, 0, 0, 0, 0],
        [0, 0, 0, 0 + 1 / 2 * (1 + 9 / 10 * 0 - 0), 0]] } := rfl
  rw [h, rewardedTable]
  norm_num

/-- C2 (evaluation of the code): on the table that `mainAgent` has after its
first rewarded update, `getBestAction 23` returns Up although the state reached
by Down has a strictly higher tabled value than the state reached by Up. -/
theorem getBestAction_not_argmax :
    updateQTable mainAgent 23 3 1 24 0 = some { mainAgent with qTable := rewardedTable } ∧
    getBestAction { mainAgent with qTable := rewardedTable } 23 = some 0 ∧
    valueOf rewardedTable (getNextState 23 0) < valueOf rewardedTable (getNextState 23 1) := by
  have h0 : valueOf rewardedTable 23 = 1 / 2 := rfl
  have h1 : valueOf rewardedTable (getNextState 23 0) = 0 := rfl
  have h2 : valueOf rewardedTable (getNextState 23 1) = 1 / 2 := rfl
  have h3 : valueOf rewardedTable (getNextState 23 2) = 0 := rfl
  have h4 : valueOf rewardedTable (getNextState 23 3) = 0 := rfl
  refine ⟨mainAgent_first_reward, ?_, ?_⟩
  · rw [getBestAction_eq rewardedTable_shape (by decide)]
    simp only [h0, h2, h3, h4]
    norm_num
  · rw [h1, h2]
    norm_num

/-- C3 (evaluation of the code): on a table in which the four states reached
from state 12 all hold the value 1/2 and state 12 itself holds 0,
`getBestAction 12` returns Down, not Up. -/
theorem getBestAction_tie_not_up :
    TableShape ringTable ∧ ValidState 12 ∧
    valueOf ringTable (getNextState 12 0) = 1 / 2 ∧
    valueOf ringTable (getNextState 12 1) = 1 / 2 ∧
    valueOf ringTable (getNextState 12 2) = 1 / 2 ∧
    valueOf ringTable (getNextState 12 3) = 1 / 2 ∧
    getBestAction { mainAgent with qTable := ringTable } 12 = some 1 := by
  have h0 : valueOf ringTable 12 = 0 := rfl
  have h1 : valueOf ringTable (getNextState 12 1) = 1 / 2 := rfl
  have h2 : valueOf ringTable (getNextState 12 2) = 1 / 2 := rfl
  have h3 : valueOf ringTable (getNextState 12 3) = 1 / 2 := rfl
  refine ⟨ringTable_shape, by decide, rfl, rfl, rfl, rfl, ?_⟩
  rw [getBestAction_eq ringTable_shape (by decide)]
  simp only [h0, h1, h2, h3]
  norm_num

/-! ## Claims on the update rule -/

/-- C5: a successful `updateQTable` on `state` leaves every table cell other
than the cell of `state` as it was (stated on cell coordinates and on states),
and leaves `alpha`, `gamma` and `epsilon` as they were; `decayExplorationRate`
and `chooseAction` leave the table as it was (`getBestAction` and
`getNextState` are `const` and return a value only). -/
theorem updateQTable_frame (ag ag1 : SARSA) (state action nextState nextAction : Int)
    (reward : ℚ)
    (h : updateQTable ag state action reward nextState nextAction = some ag1) :
    (∀ r c : Int, ¬ (r = state.tdiv GRID_SIZE ∧ c = state.tmod GRID_SIZE) →
      readCell ag1.qTable r c = readCell ag.qTable r c) ∧
    (∀ s : Int, s ≠ state → valueOf ag1.qTable s = valueOf ag.qTable s) ∧
    ag1.alpha = ag.alpha ∧ ag1.gamma = ag.gamma ∧ ag1.epsilon = ag.epsilon ∧
    (decayExplorationRate ag).qTable = ag.qTable ∧
    (∀ (s : Int) (u : ℚ) (r a : Int) (ag2 : SARSA),
      chooseAction ag s u r = some (a, ag2) → ag2.qTable = ag.qTable) := by
  obtain ⟨qValue, nextQValue, t, -, -, hadd, rfl⟩ := updateQTable_eq_some h
  refine ⟨fun r c hne => addToCell_read_other hadd r c hne, ?_, rfl, rfl, rfl, rfl, ?_⟩
  · intro s hne
    unfold valueOf
    rw [show readCell ({ ag with qTable := t } : SARSA).qTable (s.tdiv GRID_SIZE)
        (s.tmod GRID_SIZE) = readCell ag.qTable (s.tdiv GRID_SIZE) (s.tmod GRID_SIZE) from
      addToCell_read_other hadd _ _ (coords_ne_of_ne hne)]
  · intro s u r a ag2 hc
    unfold chooseAction at hc
    split at hc
    · rw [← (Prod.mk.inj (Option.some.inj hc)).2]
    · split at hc
      · rw [← (Prod.mk.inj (Option.some.inj hc)).2]
      · exact absurd hc (by simp)

theorem updateQTable_frame_witness :
    updateQTable mainAgent 23 3 1 24 0 = some { mainAgent with qTable := rewardedTable } ∧
    valueOf rewardedTable 22 = valueOf mainAgent.qTable 22 :=
  ⟨mainAgent_first_reward,
    (updateQTable_frame mainAgent { mainAgent with qTable := rewardedTable } 23 3 24 0 1
      mainAgent_first_reward).2.1 22 (by decide)⟩

/-! ## Exploration rate and action choice -/

theorem decay_iterate_fields (ag : SARSA) (k : Nat) :
    (decayExplorationRate^[k] ag).epsilon = ag.epsilon * (99 / 100) ^ k ∧
    (decayExplorationRate^[k] ag).qTable = ag.qTable ∧
    (decayExplorationRate^[k] ag).alpha = ag.alpha ∧
    (decayExplorationRate^[k] ag).gamma = ag.gamma := by
  induction k with
  | zero => simp
  | succ n ih =>
    obtain ⟨he, ht, ha, hg⟩ := ih
    rw [Function.iterate_succ_apply']
    refine ⟨?_, ht, ha, hg⟩
    show (decayExplorationRate^[n] ag).epsilon * (99 / 100) = _
    rw [he, pow_succ, mul_assoc]

/-- C9: over exact arithmetic, from an exploration rate `e0` in `[0, 1]`, after
`k` calls of `decayExplorationRate` epsilon is `e0 * (99/100)^k`; one more call
does not increase it; it stays in `[0, e0]`, hence in `[0, 1]`; and the table,
`alpha` and `gamma` are as before. -/
theorem decayExplorationRate_iterate (ag : SARSA) (h0 : 0 ≤ ag.epsilon)
    (h1 : ag.epsilon ≤ 1) (k : Nat) :
    (decayExplorationRate^[k] ag).epsilon = ag.epsilon * (99 / 100) ^ k ∧
    (decayExplorationRate^[k + 1] ag).epsilon ≤ (decayExplorationRate^[k] ag).epsilon ∧
    0 ≤ (decayExplorationRate^[k] ag).epsilon ∧
    (decayExplorationRate^[k] ag).epsilon ≤ ag.epsilon ∧
    (decayExplorationRate^[k] ag).epsilon ≤ 1 ∧
    (decayExplorationRate^[k] ag).qTable = ag.qTable ∧
    (decayExplorationRate^[k] ag).alpha = ag.alpha ∧
    (decayExplorationRate^[k] ag).gamma = ag.gamma := by
  obtain ⟨he, ht, ha, hg⟩ := decay_iterate_fields ag k
  obtain ⟨he1, -, -, -⟩ := decay_iterate_fields ag (k + 1)
  have hp0 : (0 : ℚ) ≤ (99 / 100) ^ k := pow_nonneg (by norm_num) k
  have hp1 : ((99 : ℚ) / 100) ^ k ≤ 1 := pow_le_one₀ (by norm_num) (by norm_num)
  have hnn : 0 ≤ ag.epsilon * (99 / 100) ^ k := mul_nonneg h0 hp0
  have hle : ag.epsilon * (99 / 100) ^ k ≤ ag.epsilon := by
    calc ag.epsilon * (99 / 100) ^ k ≤ ag.epsilon * 1 := mul_le_mul_of_nonneg_left hp1 h0
      _ = ag.epsilon := mul_one _
  refine ⟨he, ?_, ?_, ?_, ?_, ht, ha, hg⟩
  · rw [he1, he, pow_succ, ← mul_assoc]
    linarith
  · rw [he]; exact hnn
  · rw [he]; exact hle
  · rw [he]; exact hle.trans h1

theorem decayExplorationRate_iterate_witness :
    0 ≤ mainAgent.epsilon ∧ mainAgent.epsilon ≤ 1 ∧
    (decayExplorationRate^[2] mainAgent).epsilon = mainAgent.epsilon * (99 / 100) ^ 2 :=
  ⟨by rw [show mainAgent.epsilon = 1 / 10 from rfl]; norm_num,
    by rw [show mainAgent.epsilon = 1 / 10 from rfl]; norm_num,
    (decayExplorationRate_iterate mainAgent
      (by rw [show mainAgent.epsilon = 1 / 10 from rfl]; norm_num)
      (by rw [show mainAgent.epsilon = 1 / 10 from rfl]; norm_num) 2).1⟩

theorem chooseAction_of_shape {ag : SARSA} (ht : TableShape ag.qTable) {state : Int}
    (hs : ValidState state) (u : ℚ) {r : Int} (hr : ValidAction r) :
    ∃ a, chooseAction ag state u r = some (a, ag) ∧ ValidAction a ∧
      (u < ag.epsilon → a = r) ∧ (¬ u < ag.epsilon → getBestAction ag state = some a) := by
  obtain ⟨b, hb, hbv⟩ := getBestAction_valid ht hs
  by_cases hu : u < ag.epsilon
  · exact ⟨r, by simp [chooseAction, hu], hr, fun _ => rfl, fun hn => absurd hu hn⟩
  · exact ⟨b, by simp [chooseAction, hu, hb], hbv, fun h => absurd h hu, fun _ => hb⟩

/-- C10: on a 5x5 table and a valid state, with the real draw `u` in `[0, 1)`
and the integer draw `r` in `{0,1,2,3}` as inputs, `chooseAction` returns `r`
when `u < epsilon` and the result of `getBestAction` otherwise; the action is
in `{0,1,2,3}`; with `epsilon = 0` it is the result of `getBestAction`; and the
agent (table and epsilon included) is returned as it was. -/
theorem chooseAction_spec (ag : SARSA) (ht : TableShape ag.qTable) (state : Int)
    (hs : ValidState state) (u : ℚ) (hu0 : 0 ≤ u) (_hu1 : u < 1) (r : Int)
    (hr : ValidAction r) :
    (u < ag.epsilon → chooseAction ag state u r = some (r, ag)) ∧
    (¬ u < ag.epsilon → ∃ a, getBestAction ag state = some a ∧
      chooseAction ag state u r = some (a, ag)) ∧
    (∃ a, chooseAction ag state u r = some (a, ag) ∧ ValidAction a) ∧
    (ag.epsilon = 0 → ∃ a, getBestAction ag state = some a ∧
      chooseAction ag state u r = some (a, ag)) ∧
    (∀ a ag1, chooseAction ag state u r = some (a, ag1) →
      ag1.qTable = ag.qTable ∧ ag1.epsilon = ag.epsilon) := by
  obtain ⟨a, hc, hav, hlt, hge⟩ := chooseAction_of_shape ht hs u hr
  refine ⟨?_, ?_, ⟨a, hc, hav⟩, ?_, ?_⟩
  · intro h
    rw [hc, hlt h]
  · intro h
    exact ⟨a, hge h, hc⟩
  · intro h
    have hnot : ¬ u < ag.epsilon := by rw [h]; exact not_lt.mpr hu0
    exact ⟨a, hge hnot, hc⟩
  · intro a1 ag1 h1
    rw [hc] at h1
    rw [← (Prod.mk.inj (Option.some.inj h1)).2]
    exact ⟨rfl, rfl⟩

theorem chooseAction_spec_witness :
    TableShape rewardedTable ∧ ValidState 23 ∧ (0 : ℚ) ≤ 1 / 20 ∧ (1 : ℚ) / 20 < 1 ∧
    ValidAction 3 ∧
    chooseAction { mainAgent with qTable := rewardedTable } 23 (1 / 20) 3 =
      some (3, { mainAgent with qTable := rewardedTable }) :=
  ⟨rewardedTable_shape, by decide, by norm_num, by norm_num, by decide,
    (chooseAction_spec { mainAgent with qTable := rewardedTable } rewardedTable_shape 23
      (by decide) (1 / 20) (by norm_num) (by norm_num) 3 (by decide)).1
      (by rw [show ({ mainAgent with qTable := rewardedTable } : SARSA).epsilon = 1 / 10
        from rfl]; norm_num)⟩

/-! ## The step loop -/

theorem stepLoopBody_of_shape {ag : SARSA} (ht : TableShape ag.qTable) {state : Int}
    (hs : ValidState state) (action : Int) (u : ℚ) {r : Int} (hr : ValidAction r) :
    ∃ ag1 nextAction,
      stepLoopBody ag state action u r = some (ag1, getNextState state action, nextAction) ∧
      TableShape ag1.qTable ∧ ValidAction nextAction := by
  have hn : ValidState (getNextState state action) := getNextState_valid hs action
  obtain ⟨a, hc, hav, -, -⟩ := chooseAction_of_shape ht hn u hr
  obtain ⟨ag1, hupd, ht1, -, -, -, -⟩ :=
    updateQTable_of_shape ht hs hn action a
      (if getNextState state action = GRID_SIZE * GRID_SIZE - 1 then 1 else 0)
  exact ⟨ag1, a, by simp only [stepLoopBody, hc, hupd], ht1, hav⟩

theorem whileLoop_of_shape (draws : List (ℚ × Int)) :
    ∀ (ag : SARSA) (state action : Int), TableShape ag.qTable → ValidState state →
      ValidAction action → (∀ d ∈ draws, ValidAction d.2) →
      ∃ ag1 state1 action1, whileLoop ag state action draws = some (ag1, state1, action1) ∧
        TableShape ag1.qTable ∧ ValidState state1 ∧ ValidAction action1 := by
  induction draws with
  | nil =>
    intro ag state action ht hs ha _
    exact ⟨ag, state, action, rfl, ht, hs, ha⟩
  | cons d rest ih =>
    intro ag state action ht hs ha hd
    obtain ⟨u, r⟩ := d
    have hr : ValidAction r := hd (u, r) (List.mem_cons_self _ _)
    have hrest : ∀ d ∈ rest, ValidAction d.2 := fun d hmem => hd d (List.mem_cons_of_mem _ hmem)
    by_cases hterm : state ≠ GRID_SIZE * GRID_SIZE - 1
    · obtain ⟨ag1, a1, hstep, ht1, ha1⟩ := stepLoopBody_of_shape ht hs action u hr
      obtain ⟨ag2, s2, a2, hloop, ht2, hs2, ha2⟩ :=
        ih ag1 (getNextState state action) a1 ht1 (getNextState_valid hs action) ha1 hrest
      refine ⟨ag2, s2, a2, ?_, ht2, hs2, ha2⟩
      simp only [whileLoop, hterm, hstep, hloop, if_true, not_false_eq_true, ne_eq]
    · refine ⟨ag, state, action, ?_, ht, hs, ha⟩
      simp only [whileLoop, hterm, if_false]

/-- C6: `getNextState` maps a valid state and an action in `{0,1,2,3}` to a
valid state; and from a 5x5 table, a start state in `[0, 24]` and integer draws
in `{0,1,2,3}`, the first `chooseAction` and any number of passes of the step
loop succeed (no table access of `getBestAction` or `updateQTable` is out of
range), ending in a valid state with an action in `{0,1,2,3}` and a 5x5
table. -/
theorem episode_stays_valid (ag : SARSA) (ht : TableShape ag.qTable) (start : Int)
    (hstart : ValidState start) (u0 : ℚ) (r0 : Int) (hr0 : ValidAction r0)
    (draws : List (ℚ × Int)) (hdraws : ∀ d ∈ draws, ValidAction d.2) :
    (∀ s a : Int, ValidState s → ValidAction a → ValidState (getNextState s a)) ∧
    (∀ s : Int, ValidState s → ∃ a, getBestAction ag s = some a) ∧
    (∀ (s n a b : Int) (reward : ℚ), ValidState s → ValidState n →
      ∃ ag1, updateQTable ag s a reward n b = some ag1) ∧
    ∃ action0, chooseAction ag start u0 r0 = some (action0, ag) ∧ ValidAction action0 ∧
      ∃ ag1 state1 action1,
        whileLoop ag start action0 draws = some (ag1, state1, action1) ∧
        TableShape ag1.qTable ∧ ValidState state1 ∧ ValidAction action1 := by
  refine ⟨fun s a hs _ => getNextState_valid hs a, ?_, ?_, ?_⟩
  · intro s hs
    obtain ⟨a, ha, -⟩ := getBestAction_valid ht hs
    exact ⟨a, ha⟩
  · intro s n a b reward hs hn
    obtain ⟨ag1, h, -⟩ := updateQTable_of_shape ht hs hn a b reward
    exact ⟨ag1, h⟩
  · obtain ⟨a0, hc, hav, -, -⟩ := chooseAction_of_shape ht hstart u0 hr0
    exact ⟨a0, hc, hav, whileLoop_of_shape draws ag start a0 ht hstart hav hdraws⟩

theorem episode_stays_valid_witness :
    TableShape mainAgent.qTable ∧ ValidState 18 ∧ ValidAction 1 ∧
    (∀ d ∈ [((0 : ℚ), (3 : Int))], ValidAction d.2) ∧
    ∃ ag1 state1 action1,
      (∃ action0, chooseAction mainAgent 18 0 1 = some (action0, mainAgent) ∧
        whileLoop mainAgent 18 action0 [(0, 3)] = some (ag1, state1, action1)) ∧
      ValidState state1 :=
  ⟨mainAgent_shape, by decide, by decide, by simp [ValidAction],
    by
      obtain ⟨a0, hc, -, ag1, s1, a1, hloop, -, hs1, -⟩ :=
        (episode_stays_valid mainAgent mainAgent_shape 18 (by decide) 0 1 (by decide)
          [(0, 3)] (by simp [ValidAction])).2.2.2
      exact ⟨ag1, s1, a1, ⟨a0, hc, hloop⟩, hs1⟩⟩

/-! ## Reward, termination test and construction -/

/-- C14: the reward of the step loop is 1 exactly when `nextState` is 24 and 0
for every other state, the step loop passes this reward to `updateQTable`, and
the continuation test of the `while` loop holds exactly at the states other
than 24: at state 24 the loop returns at once, at any other state it runs the
loop body and goes on. -/
theorem reward_and_terminal_test :
    (∀ nextState : Int, rewardOf nextState = 1 ↔ nextState = 24) ∧
    (∀ nextState : Int, nextState ≠ 24 → rewardOf nextState = 0) ∧
    (∀ (ag : SARSA) (state action : Int) (u : ℚ) (r : Int),
      stepLoopBody ag state action u r =
        match chooseAction ag (getNextState state action) u r with
        | some (nextAction, ag1) =>
          match updateQTable ag1 state action (rewardOf (getNextState state action))
              (getNextState state action) nextAction with
          | some ag2 => some (ag2, getNextState state action, nextAction)
          | none => none
        | none => none) ∧
    (∀ state : Int, loopContinues state = true ↔ state ≠ 24) ∧
    (∀ (ag : SARSA) (state action : Int) (u : ℚ) (r : Int) (draws : List (ℚ × Int)),
      whileLoop ag state action ((u, r) :: draws) =
        if loopContinues state = true then
          match stepLoopBody ag state action u r with
          | some (ag1, state1, action1) => whileLoop ag1 state1 action1 draws
          | none => none
        else some (ag, state, action)) ∧
    (∀ (ag : SARSA) (action : Int) (draws : List (ℚ × Int)),
      whileLoop ag 24 action draws = some (ag, 24, action)) ∧
    (∀ (ag : SARSA) (state action : Int) (u : ℚ) (r : Int) (draws : List (ℚ × Int)),
      state ≠ 24 →
      whileLoop ag state action ((u, r) :: draws) =
        match stepLoopBody ag state action u r with
        | some (ag1, state1, action1) => whileLoop ag1 state1 action1 draws
        | none => none) := by
  have hterm : GRID_SIZE * GRID_SIZE - 1 = 24 := rfl
  refine ⟨?_, ?_, fun _ _ _ _ _ => rfl, ?_, ?_, ?_, ?_⟩
  · intro n
    unfold rewardOf
    rw [hterm]
    split_ifs with h
    · exact ⟨fun _ => h, fun _ => rfl⟩
    · exact ⟨fun h0 => absurd h0 (by norm_num), fun h1 => absurd h1 h⟩
  · intro n hn
    unfold rewardOf
    rw [hterm, if_neg hn]
  · intro s
    simp only [loopContinues, decide_eq_true_eq, hterm]
  · intro ag s a u r draws
    simp only [whileLoop, loopContinues, decide_eq_true_eq]
  · intro ag a draws
    cases draws with
    | nil => rfl
    | cons d rest => rfl
  · intro ag s a u r draws hs
    have hs1 : s ≠ GRID_SIZE * GRID_SIZE - 1 := by rw [hterm]; exact hs
    simp only [whileLoop, hs1, ne_eq, not_false_eq_true, if_true]

/-- C15: right after construction the table has 5 rows of 5 entries, every
entry is 0 (read by cell and by state), and the stored `alpha`, `gamma`,
`epsilon` are the constructor arguments. -/
theorem new_table_zero (alpha gamma epsilon : ℚ) :
    TableShape (SARSA.new alpha gamma epsilon).qTable ∧
    (SARSA.new alpha gamma epsilon).qTable =
      [[0, 0, 0, 0, 0], [0, 0, 0, 0, 0], [0, 0, 0, 0, 0], [0, 0, 0, 0, 0], [0, 0, 0, 0, 0]] ∧
    (∀ row col : Int, 0 ≤ row → row < 5 → 0 ≤ col → col < 5 →
      readCell (SARSA.new alpha gamma epsilon).qTable row col = some 0) ∧
    (∀ s : Int, ValidState s → valueOf (SARSA.new alpha gamma epsilon).qTable s = 0) ∧
    (SARSA.new alpha gamma epsilon).alpha = alpha ∧
    (SARSA.new alpha gamma epsilon).gamma = gamma ∧
    (SARSA.new alpha gamma epsilon).epsilon = epsilon := by
  refine ⟨tableShape_of_rows rfl rfl rfl rfl rfl, rfl, ?_, ?_, rfl, rfl, rfl⟩
  · intro row col hr0 hr hc0 hc
    interval_cases row <;> interval_cases col <;> rfl
  · intro s hs
    obtain ⟨h0, h1⟩ := hs
    interval_cases s <;> rfl

/-! ## The greedy choice as coded -/

theorem pickBest_cases (v0 v1 v2 v3 : ℚ) :
    (v0 < max (max v1 v2) v3 →
      ((if v1 > v0 then (if v2 > v1 then (if v3 > v2 then 3 else 2)
          else (if v3 > v1 then 3 else 1))
        else (if v2 > v0 then (if v3 > v2 then 3 else 2)
          else (if v3 > v0 then 3 else 0)) : Int) = 1 ∧ v1 = max (max v1 v2) v3) ∨
      ((if v1 > v0 then (if v2 > v1 then (if v3 > v2 then 3 else 2)
          else (if v3 > v1 then 3 else 1))
        else (if v2 > v0 then (if v3 > v2 then 3 else 2)
          else (if v3 > v0 then 3 else 0)) : Int) = 2 ∧ v2 = max (max v1 v2) v3 ∧
        v1 ≠ max (max v1 v2) v3) ∨
      ((if v1 > v0 then (if v2 > v1 then (if v3 > v2 then 3 else 2)
          else (if v3 > v1 then 3 else 1))
        else (if v2 > v0 then (if v3 > v2 then 3 else 2)
          else (if v3 > v0 then 3 else 0)) : Int) = 3 ∧ v3 = max (max v1 v2) v3 ∧
        v1 ≠ max (max v1 v2) v3 ∧ v2 ≠ max (max v1 v2) v3)) ∧
    (¬ v0 < max (max v1 v2) v3 →
      (if v1 > v0 then (if v2 > v1 then (if v3 > v2 then 3 else 2)
          else (if v3 > v1 then 3 else 1))
        else (if v2 > v0 then (if v3 > v2 then 3 else 2)
          else (if v3 > v0 then 3 else 0)) : Int) = 0) := by
  simp only [max_def, gt_iff_lt]
  constructor
  · intro h
    split_ifs at h ⊢ <;>
      first
        | (left; refine ⟨rfl, ?_⟩; linarith)
        | (right; left; refine ⟨rfl, ?_, ?_⟩ <;> linarith)
        | (right; right; refine ⟨rfl, ?_, ?_, ?_⟩ <;> linarith)
        | (exfalso; linarith)
  · intro h
    split_ifs at h ⊢ <;> first | rfl | (exfalso; linarith)

/-- C16: on a 5x5 table and a valid state `s`, with `m` the largest tabled
value among the states reached by actions 1, 2, 3: if `m` exceeds the value of
`s` itself, `getBestAction` returns the lowest of the actions 1, 2, 3 whose
resulting state has value `m`, otherwise it returns 0; so two tables that agree
on `s` and on the states reached by actions 1, 2, 3 give the same result,
whatever they hold at the state reached by action 0. -/
theorem getBestAction_characterised (ag : SARSA) (ht : TableShape ag.qTable) (s : Int)
    (hs : ValidState s) :
    (valueOf ag.qTable s <
        max (max (valueOf ag.qTable (getNextState s 1)) (valueOf ag.qTable (getNextState s 2)))
          (valueOf ag.qTable (getNextState s 3)) →
      ∃ a, getBestAction ag s = some a ∧ (a = 1 ∨ a = 2 ∨ a = 3) ∧
        valueOf ag.qTable (getNextState s a) =
          max (max (valueOf ag.qTable (getNextState s 1))
            (valueOf ag.qTable (getNextState s 2))) (valueOf ag.qTable (getNextState s 3)) ∧
        ∀ b : Int, (b = 1 ∨ b = 2 ∨ b = 3) → b < a →
          valueOf ag.qTable (getNextState s b) ≠
            max (max (valueOf ag.qTable (getNextState s 1))
              (valueOf ag.qTable (getNextState s 2))) (valueOf ag.qTable (getNextState s 3))) ∧
    (¬ valueOf ag.qTable s <
        max (max (valueOf ag.qTable (getNextState s 1)) (valueOf ag.qTable (getNextState s 2)))
          (valueOf ag.qTable (getNextState s 3)) →
      getBestAction ag s = some 0) ∧
    (∀ ag2 : SARSA, TableShape ag2.qTable →
      valueOf ag2.qTable s = valueOf ag.qTable s →
      valueOf ag2.qTable (getNextState s 1) = valueOf ag.qTable (getNextState s 1) →
      valueOf ag2.qTable (getNextState s 2) = valueOf ag.qTable (getNextState s 2) →
      valueOf ag2.qTable (getNextState s 3) = valueOf ag.qTable (getNextState s 3) →
      getBestAction ag2 s = getBestAction ag s) := by
  obtain ⟨hlt, hge⟩ := pickBest_cases (valueOf ag.qTable s)
    (valueOf ag.qTable (getNextState s 1)) (valueOf ag.qTable (getNextState s 2))
    (valueOf ag.qTable (getNextState s 3))
  refine ⟨?_, ?_, ?_⟩
  · intro h
    rcases hlt h with ⟨hr, hm⟩ | ⟨hr, hm, h1⟩ | ⟨hr, hm, h1, h2⟩
    · refine ⟨1, by rw [getBestAction_eq ht hs, hr], Or.inl rfl, hm, ?_⟩
      intro b hb hb1
      rcases hb with rfl | rfl | rfl <;> exact absurd hb1 (by decide)
    · refine ⟨2, by rw [getBestAction_eq ht hs, hr], Or.inr (Or.inl rfl), hm, ?_⟩
      intro b hb hb1
      rcases hb with rfl | rfl | rfl
      · exact h1
      · exact absurd hb1 (by decide)
      · exact absurd hb1 (by decide)
    · refine ⟨3, by rw [getBestAction_eq ht hs, hr], Or.inr (Or.inr rfl), hm, ?_⟩
      intro b hb hb1
      rcases hb with rfl | rfl | rfl
      · exact h1
      · exact h2
      · exact absurd hb1 (by decide)
  · intro h
    rw [getBestAction_eq ht hs, hge h]
  · intro ag2 ht2 e0 e1 e2 e3
    rw [getBestAction_eq ht hs, getBestAction_eq ht2 hs, e0, e1, e2, e3]

theorem getBestAction_characterised_witness :
    TableShape rewardedTable ∧ ValidState 23 ∧
    getBestAction { mainAgent with qTable := rewardedTable } 23 = some 0 :=
  ⟨rewardedTable_shape, by decide,
    (getBestAction_characterised { mainAgent with qTable := rewardedTable }
      rewardedTable_shape 23 (by decide)).2.1 (by
        have h0 : valueOf rewardedTable 23 = 1 / 2 := rfl
        have h1 : valueOf rewardedTable (getNextState 23 1) = 1 / 2 := rfl
        have h2 : valueOf rewardedTable (getNextState 23 2) = 0 := rfl
        have h3 : valueOf rewardedTable (getNextState 23 3) = 0 := rfl
        simp only [h0, h1, h2, h3]
        norm_num)⟩

/-! ## Invariants of the step loop and of the episode loop -/

theorem terminal_eq : GRID_SIZE * GRID_SIZE - 1 = 24 := rfl

theorem updateQTable_valueOf_other {ag ag1 : SARSA} {state action nextState nextAction : Int}
    {reward : ℚ} (h : updateQTable ag state action reward nextState nextAction = some ag1)
    {s : Int} (hne : s ≠ state) : valueOf ag1.qTable s = valueOf ag.qTable s := by
  obtain ⟨qValue, nextQValue, t, -, -, hadd, rfl⟩ := updateQTable_eq_some h
  unfold valueOf
  rw [show readCell ({ ag with qTable := t } : SARSA).qTable (s.tdiv GRID_SIZE)
      (s.tmod GRID_SIZE) = readCell ag.qTable (s.tdiv GRID_SIZE) (s.tmod GRID_SIZE) from
    addToCell_read_other hadd _ _ (coords_ne_of_ne hne)]

theorem stepLoopBody_spec {ag : SARSA} (ht : TableShape ag.qTable) {state : Int}
    (hs : ValidState state) (action : Int) (u : ℚ) {r : Int} (hr : ValidAction r) :
    ∃ ag1 nextAction,
      stepLoopBody ag state action u r = some (ag1, getNextState state action, nextAction) ∧
      TableShape ag1.qTable ∧ ValidAction nextAction ∧
      ag1.alpha = ag.alpha ∧ ag1.gamma = ag.gamma ∧ ag1.epsilon = ag.epsilon ∧
      valueOf ag1.qTable state = valueOf ag.qTable state +
        ag.alpha * ((if getNextState state action = 24 then 1 else 0) +
          ag.gamma * valueOf ag.qTable (getNextState state action) -
          valueOf ag.qTable state) ∧
      (∀ s : Int, s ≠ state → valueOf ag1.qTable s = valueOf ag.qTable s) ∧
      (u < ag.epsilon → nextAction = r) ∧
      (¬ u < ag.epsilon → getBestAction ag (getNextState state action) = some nextAction) := by
  have hn : ValidState (getNextState state action) := getNextState_valid hs action
  obtain ⟨a, hc, hav, hlt, hge⟩ := chooseAction_of_shape ht hn u hr
  obtain ⟨ag1, hupd, ht1, hal, hga, hep, hv⟩ :=
    updateQTable_of_shape ht hs hn action a
      (if getNextState state action = GRID_SIZE * GRID_SIZE - 1 then 1 else 0)
  refine ⟨ag1, a, by simp only [stepLoopBody, hc, hupd], ht1, hav, hal, hga, hep, ?_,
    fun s hne => updateQTable_valueOf_other hupd hne, hlt, hge⟩
  rw [hv, terminal_eq]

theorem whileLoop_invariant (P : SARSA → Prop)
    (hstep : ∀ (ag ag1 : SARSA) (s a : Int) (u : ℚ) (r s1 a1 : Int),
      TableShape ag.qTable → ValidState s → s ≠ 24 → ValidAction r → P ag →
      stepLoopBody ag s a u r = some (ag1, s1, a1) → P ag1)
    (draws : List (ℚ × Int)) :
    ∀ (ag : SARSA) (state action : Int), TableShape ag.qTable → ValidState state →
      ValidAction action → (∀ d ∈ draws, ValidAction d.2) → P ag →
      ∃ ag1 state1 action1, whileLoop ag state action draws = some (ag1, state1, action1) ∧
        TableShape ag1.qTable ∧ ValidState state1 ∧ ValidAction action1 ∧
        ag1.epsilon = ag.epsilon ∧ P ag1 := by
  induction draws with
  | nil =>
    intro ag state action ht hs ha _ hP
    exact ⟨ag, state, action, rfl, ht, hs, ha, rfl, hP⟩
  | cons d rest ih =>
    intro ag state action ht hs ha hd hP
    obtain ⟨u, r⟩ := d
    have hr : ValidAction r := hd (u, r) (List.mem_cons_self _ _)
    have hrest : ∀ d ∈ rest, ValidAction d.2 := fun d hmem => hd d (List.mem_cons_of_mem _ hmem)
    by_cases hterm : state ≠ GRID_SIZE * GRID_SIZE - 1
    · obtain ⟨ag1, a1, hstep1, ht1, ha1, -, -, hep, -⟩ := stepLoopBody_spec ht hs action u hr
      have hP1 : P ag1 := hstep ag ag1 state action u r _ a1 ht hs hterm hr hP hstep1
      obtain ⟨ag2, s2, a2, hloop, ht2, hs2, ha2, hep2, hP2⟩ :=
        ih ag1 (getNextState state action) a1 ht1 (getNextState_valid hs action) ha1 hrest hP1
      refine ⟨ag2, s2, a2, ?_, ht2, hs2, ha2, hep2.trans hep, hP2⟩
      simp only [whileLoop, hterm, hstep1, hloop, if_true, not_false_eq_true, ne_eq]
    · refine ⟨ag, state, action, ?_, ht, hs, ha, rfl, hP⟩
      simp only [whileLoop, hterm, if_false]

theorem mainLoop_invariant (P : SARSA → Prop)
    (hstep : ∀ (ag ag1 : SARSA) (s a : Int) (u : ℚ) (r s1 a1 : Int),
      TableShape ag.qTable → ValidState s → s ≠ 24 → ValidAction r → P ag →
      stepLoopBody ag s a u r = some (ag1, s1, a1) → P ag1)
    (hdecay : ∀ ag : SARSA, P ag → P (decayExplorationRate ag))
    (episodes : List EpisodeDraws) :
    ∀ ag : SARSA, TableShape ag.qTable → (∀ d ∈ episodes, ValidDraws d) → P ag →
      ∃ ag1 done, mainLoop ag episodes = some (ag1, done) ∧ TableShape ag1.qTable ∧ P ag1 := by
  induction episodes with
  | nil =>
    intro ag ht _ hP
    exact ⟨ag, true, rfl, ht, hP⟩
  | cons d rest ih =>
    intro ag ht hd hP
    obtain ⟨hstart, hfirst, hsteps⟩ := hd d (List.mem_cons_self _ _)
    have hrest : ∀ d ∈ rest, ValidDraws d := fun d hmem => hd d (List.mem_cons_of_mem _ hmem)
    obtain ⟨a0, hc, hav, -, -⟩ := chooseAction_of_shape ht hstart d.first.1 hfirst
    obtain ⟨ag2, s2, a2, hloop, ht2, -, -, -, hP2⟩ :=
      whileLoop_invariant P hstep d.steps ag d.start a0 ht hstart hav hsteps hP
    by_cases hterm : s2 ≠ GRID_SIZE * GRID_SIZE - 1
    · refine ⟨ag2, false, ?_, ht2, hP2⟩
      simp only [mainLoop, hc, hloop, hterm, if_true, not_false_eq_true, ne_eq]
    · obtain ⟨ag3, done, hmain, ht3, hP3⟩ :=
        ih (decayExplorationRate ag2) ht2 hrest (hdecay ag2 hP2)
      refine ⟨ag3, done, ?_, ht3, hP3⟩
      simp only [mainLoop, hc, hloop, hterm, if_false, hmain]

theorem stepLoopBody_facts {ag ag1 : SARSA} {state action r state1 action1 : Int} {u : ℚ}
    (ht : TableShape ag.qTable) (hs : ValidState state) (hr : ValidAction r)
    (h : stepLoopBody ag state action u r = some (ag1, state1, action1)) :
    state1 = getNextState state action ∧
    ag1.alpha = ag.alpha ∧ ag1.gamma = ag.gamma ∧
    valueOf ag1.qTable state = valueOf ag.qTable state +
      ag.alpha * ((if getNextState state action = 24 then 1 else 0) +
        ag.gamma * valueOf ag.qTable (getNextState state action) -
        valueOf ag.qTable state) ∧
    (∀ s : Int, s ≠ state → valueOf ag1.qTable s = valueOf ag.qTable s) := by
  obtain ⟨ag2, a2, h2, -, -, hal, hga, -, hv, hframe, -, -⟩ :=
    stepLoopBody_spec ht hs action u hr
  rw [h2] at h
  have e := Option.some.inj h
  have e1 : ag2 = ag1 := (Prod.mk.inj e).1
  have e2 : getNextState state action = state1 := (Prod.mk.inj (Prod.mk.inj e).2).1
  subst e1
  exact ⟨e2.symm, hal, hga, hv, hframe⟩

theorem stepLoopBody_eq_some {ag ag1 : SARSA} {state action r state1 action1 : Int} {u : ℚ}
    (h : stepLoopBody ag state action u r = some (ag1, state1, action1)) :
    updateQTable ag state action (rewardOf (getNextState state action))
      (getNextState state action) action1 = some ag1 := by
  unfold stepLoopBody at h
  simp only at h
  split at h
  · rename_i nextAction ag2 hc
    have hag : ag2 = ag := by
      unfold chooseAction at hc
      split at hc
      · exact ((Prod.mk.inj (Option.some.inj hc)).2).symm
      · split at hc
        · exact ((Prod.mk.inj (Option.some.inj hc)).2).symm
        · exact absurd hc (by simp)
    subst hag
    split at h
    · rename_i ag3 hupd
      have e := Option.some.inj h
      have e1 : ag3 = ag1 := (Prod.mk.inj e).1
      have e3 : nextAction = action1 := (Prod.mk.inj (Prod.mk.inj e).2).2
      subst e1
      subst e3
      exact hupd
    · exact absurd h (by simp)
  · exact absurd h (by simp)

/-- C17: from a freshly constructed agent, with any parameters, the `while`
loop makes no pass at state 24, the one `updateQTable` call of a pass is made
on the state that passed the loop test and leaves the entry of state 24 as it
was, and after any number of episodes and steps (the run succeeds on draws in
range) the entry of state 24 is 0. -/
theorem terminal_entry_never_learned (alpha gamma epsilon : ℚ)
    (episodes : List EpisodeDraws) (hd : ∀ d ∈ episodes, ValidDraws d) :
    (∀ (ag : SARSA) (action : Int) (draws : List (ℚ × Int)),
      whileLoop ag 24 action draws = some (ag, 24, action)) ∧
    (∀ (ag ag1 : SARSA) (s a : Int) (u : ℚ) (r s1 a1 : Int), s ≠ 24 →
      stepLoopBody ag s a u r = some (ag1, s1, a1) →
      updateQTable ag s a (rewardOf (getNextState s a)) (getNextState s a) a1 = some ag1 ∧
      valueOf ag1.qTable 24 = valueOf ag.qTable 24) ∧
    ∃ ag1 done, mainLoop (SARSA.new alpha gamma epsilon) episodes = some (ag1, done) ∧
      valueOf ag1.qTable 24 = 0 := by
  refine ⟨?_, ?_, ?_⟩
  · intro ag a draws
    cases draws with
    | nil => rfl
    | cons d rest => rfl
  · intro ag ag1 s a u r s1 a1 hs h
    have hupd := stepLoopBody_eq_some h
    exact ⟨hupd, updateQTable_valueOf_other hupd (Ne.symm hs)⟩
  · obtain ⟨ag1, done, hmain, -, hP⟩ :=
      mainLoop_invariant (fun ag => valueOf ag.qTable 24 = 0)
        (fun ag ag1 s a u r s1 a1 _ _ hs _ hP h =>
          (updateQTable_valueOf_other (stepLoopBody_eq_some h) (Ne.symm hs)).trans hP)
        (fun ag hP => hP) episodes (SARSA.new alpha gamma epsilon)
        (tableShape_of_rows rfl rfl rfl rfl rfl) hd rfl
    exact ⟨ag1, done, hmain, hP⟩

theorem sampleEpisode_valid : ∀ d ∈ [sampleEpisode], ValidDraws d := by
  intro d hd
  rw [List.mem_singleton] at hd
  subst hd
  refine ⟨by decide, by decide, ?_⟩
  intro x hx
  rw [show sampleEpisode.steps = [(0, 3)] from rfl, List.mem_singleton] at hx
  subst hx
  decide

theorem terminal_entry_never_learned_witness :
    (∀ d ∈ [sampleEpisode], ValidDraws d) ∧
    ∃ ag1 done, mainLoop (SARSA.new (1 / 2) (9 / 10) (1 / 10)) [sampleEpisode] =
      some (ag1, done) ∧ valueOf ag1.qTable 24 = 0 :=
  ⟨sampleEpisode_valid,
    (terminal_entry_never_learned (1 / 2) (9 / 10) (1 / 10) [sampleEpisode]
      sampleEpisode_valid).2.2⟩

/-! ## Boundedness of the table -/

theorem td_target_bounds {a g v w rew : ℚ} (ha0 : 0 < a) (ha1 : a < 1) (hg0 : 0 ≤ g)
    (hg1 : g ≤ 1) (hv0 : 0 ≤ v) (hv1 : v ≤ 1) (hw0 : 0 ≤ w) (hw1 : w ≤ 1)
    (hrew : rew = 0 ∨ (rew = 1 ∧ w = 0)) :
    0 ≤ v + a * (rew + g * w - v) ∧ v + a * (rew + g * w - v) ≤ 1 := by
  have hgw0 : 0 ≤ g * w := mul_nonneg hg0 hw0
  have hgw1 : g * w ≤ 1 := by
    calc g * w ≤ 1 * 1 := mul_le_mul hg1 hw1 hw0 (by norm_num)
      _ = 1 := by norm_num
  have e : v + a * (rew + g * w - v) = (1 - a) * v + a * (rew + g * w) := by ring
  rw [e]
  have h1 : 0 ≤ (1 - a) * v := mul_nonneg (by linarith) hv0
  have h2 : (1 - a) * v ≤ (1 - a) * 1 := mul_le_mul_of_nonneg_left hv1 (by linarith)
  rcases hrew with h0 | ⟨h0, hw⟩
  · subst h0
    have h3 : 0 ≤ a * (0 + g * w) := mul_nonneg ha0.le (by linarith)
    have h4 : a * (0 + g * w) ≤ a * 1 := mul_le_mul_of_nonneg_left (by linarith) ha0.le
    constructor <;> linarith
  · subst h0
    subst hw
    simp only [mul_zero, add_zero]
    constructor <;> linarith

theorem tableBounded_step {ag ag1 : SARSA} {s a r s1 a1 : Int} {u : ℚ}
    (ht : TableShape ag.qTable) (hs : ValidState s) (hterm : s ≠ 24) (hr : ValidAction r)
    (hP : (0 < ag.alpha ∧ ag.alpha < 1 ∧ 0 ≤ ag.gamma ∧ ag.gamma ≤ 1) ∧
      TableBounded ag.qTable)
    (h : stepLoopBody ag s a u r = some (ag1, s1, a1)) :
    (0 < ag1.alpha ∧ ag1.alpha < 1 ∧ 0 ≤ ag1.gamma ∧ ag1.gamma ≤ 1) ∧
      TableBounded ag1.qTable := by
  obtain ⟨⟨ha0, ha1, hg0, hg1⟩, hb, h24⟩ := hP
  obtain ⟨-, hal, hga, hv, hframe⟩ := stepLoopBody_facts ht hs hr h
  refine ⟨by rw [hal, hga]; exact ⟨ha0, ha1, hg0, hg1⟩, ?_, ?_⟩
  · intro x
    by_cases hx : x = s
    · subst hx
      rw [hv]
      refine td_target_bounds ha0 ha1 hg0 hg1 (hb x).1 (hb x).2 (hb _).1 (hb _).2 ?_
      by_cases hn : getNextState x a = 24
      · right
        rw [if_pos hn, hn]
        exact ⟨rfl, h24⟩
      · left
        rw [if_neg hn]
    · rw [hframe x hx]
      exact hb x
  · rw [hframe 24 (Ne.symm hterm)]
    exact h24

theorem valueOf_eq_zero_of_cells {t : List (List ℚ)}
    (hz : ∀ cells ∈ t, ∀ x ∈ cells, x = 0) (s : Int) : valueOf t s = 0 := by
  unfold valueOf readCell
  split_ifs with h
  · cases hrow : t[(s.tdiv GRID_SIZE).toNat]? with
    | none => rfl
    | some cells =>
      simp only
      cases hcol : cells[(s.tmod GRID_SIZE).toNat]? with
      | none => rfl
      | some x =>
        exact hz cells (List.getElem?_mem hrow) x (List.getElem?_mem hcol)
  · rfl

theorem new_valueOf (alpha gamma epsilon : ℚ) (s : Int) :
    valueOf (SARSA.new alpha gamma epsilon).qTable s = 0 := by
  apply valueOf_eq_zero_of_cells
  intro cells hcells x hx
  have hc : cells = List.replicate GRID_SIZE.toNat 0 := List.eq_of_mem_replicate hcells
  rw [hc] at hx
  exact List.eq_of_mem_replicate hx

theorem new_tableBounded (alpha gamma epsilon : ℚ) :
    TableBounded (SARSA.new alpha gamma epsilon).qTable :=
  ⟨fun s => by rw [new_valueOf]; norm_num, new_valueOf alpha gamma epsilon 24⟩

/-- C13: over exact arithmetic, with `0 < alpha < 1` and `0 ≤ gamma ≤ 1`, a pass
of the step loop (at a non-terminal valid state, with the reward of the loop)
succeeds and preserves "every entry is in `[0, 1]` and the entry of state 24 is
0"; and from the all-zero table of a new agent, after any number of episodes
and steps every entry is in `[0, 1]` and the entry of state 24 is 0. -/
theorem table_stays_bounded (alpha gamma epsilon : ℚ) (ha0 : 0 < alpha) (ha1 : alpha < 1)
    (hg0 : 0 ≤ gamma) (hg1 : gamma ≤ 1) (episodes : List EpisodeDraws)
    (hd : ∀ d ∈ episodes, ValidDraws d) :
    (∀ (ag : SARSA) (s a : Int) (u : ℚ) (r : Int), TableShape ag.qTable →
      ag.alpha = alpha → ag.gamma = gamma → TableBounded ag.qTable →
      ValidState s → s ≠ 24 → ValidAction r →
      ∃ ag1 a1, stepLoopBody ag s a u r = some (ag1, getNextState s a, a1) ∧
        TableBounded ag1.qTable) ∧
    ∃ ag1 done, mainLoop (SARSA.new alpha gamma epsilon) episodes = some (ag1, done) ∧
      (∀ s : Int, 0 ≤ valueOf ag1.qTable s ∧ valueOf ag1.qTable s ≤ 1) ∧
      valueOf ag1.qTable 24 = 0 := by
  constructor
  · intro ag s a u r ht hal hga hb hs hterm hr
    obtain ⟨ag1, a1, hstep, -⟩ := stepLoopBody_spec ht hs a u hr
    exact ⟨ag1, a1, hstep,
      (tableBounded_step ht hs hterm hr
        ⟨by rw [hal, hga]; exact ⟨ha0, ha1, hg0, hg1⟩, hb⟩ hstep).2⟩
  · obtain ⟨ag1, done, hmain, -, -, hb⟩ :=
      mainLoop_invariant
        (fun ag => (0 < ag.alpha ∧ ag.alpha < 1 ∧ 0 ≤ ag.gamma ∧ ag.gamma ≤ 1) ∧
          TableBounded ag.qTable)
        (fun ag ag1 s a u r s1 a1 ht hs hterm hr hP h =>
          tableBounded_step ht hs hterm hr hP h)
        (fun ag hP => hP) episodes (SARSA.new alpha gamma epsilon)
        (tableShape_of_rows rfl rfl rfl rfl rfl) hd
        ⟨⟨ha0, ha1, hg0, hg1⟩, new_tableBounded alpha gamma epsilon⟩
    exact ⟨ag1, done, hmain, hb.1, hb.2⟩

theorem table_stays_bounded_witness :
    (0 : ℚ) < 1 / 2 ∧ (1 : ℚ) / 2 < 1 ∧ (0 : ℚ) ≤ 9 / 10 ∧ (9 : ℚ) / 10 ≤ 1 ∧
    (∀ d ∈ [sampleEpisode], ValidDraws d) ∧
    ∃ ag1 done, mainLoop (SARSA.new (1 / 2) (9 / 10) (1 / 10)) [sampleEpisode] =
        some (ag1, done) ∧
      (∀ s : Int, 0 ≤ valueOf ag1.qTable s ∧ valueOf ag1.qTable s ≤ 1) ∧
      valueOf ag1.qTable 24 = 0 :=
  ⟨by norm_num, by norm_num, by norm_num, by norm_num, sampleEpisode_valid,
    (table_stays_bounded (1 / 2) (9 / 10) (1 / 10) (by norm_num) (by norm_num) (by norm_num)
      (by norm_num) [sampleEpisode] sampleEpisode_valid).2⟩

/-! ## Propagation of the reward -/

theorem pred_of_terminal {s : Int} (hs : ValidState s) (hne : s ≠ 24) (a : Int)
    (h : getNextState s a = 24) : s = 19 ∨ s = 23 := by
  obtain ⟨h0, h1⟩ := hs
  unfold getNextState at h
  split_ifs at h <;> interval_cases s <;>
    first
      | exact absurd h (by decide)
      | exact absurd rfl hne
      | decide

theorem nonNeg_step {ag ag1 : SARSA} {s a r s1 a1 : Int} {u : ℚ}
    (ht : TableShape ag.qTable) (hs : ValidState s) (hr : ValidAction r)
    (hP : NonNegAgent ag) (h : stepLoopBody ag s a u r = some (ag1, s1, a1)) :
    NonNegAgent ag1 ∧ (GoalSeen ag → GoalSeen ag1) ∧
    (0 < valueOf ag.qTable s ∨ s1 = 24 → 0 < valueOf ag1.qTable s) := by
  obtain ⟨ha0, ha1, hg0, hnn⟩ := hP
  obtain ⟨hs1, hal, hga, hv, hframe⟩ := stepLoopBody_facts ht hs hr h
  have hrew : (0 : ℚ) ≤ if getNextState s a = 24 then 1 else 0 := by
    split_ifs <;> norm_num
  have hgw : 0 ≤ ag.gamma * valueOf ag.qTable (getNextState s a) := mul_nonneg hg0 (hnn _)
  have e : valueOf ag1.qTable s = (1 - ag.alpha) * valueOf ag.qTable s +
      ag.alpha * ((if getNextState s a = 24 then 1 else 0) +
        ag.gamma * valueOf ag.qTable (getNextState s a)) := by
    rw [hv]; ring
  have hkeep : 0 ≤ (1 - ag.alpha) * valueOf ag.qTable s :=
    mul_nonneg (by linarith) (hnn s)
  have hadd : 0 ≤ ag.alpha * ((if getNextState s a = 24 then 1 else 0) +
      ag.gamma * valueOf ag.qTable (getNextState s a)) :=
    mul_nonneg ha0.le (by linarith)
  have hpos : 0 < valueOf ag.qTable s ∨ s1 = 24 → 0 < valueOf ag1.qTable s := by
    rintro (hp | hgoal)
    · have : 0 < (1 - ag.alpha) * valueOf ag.qTable s := mul_pos (by linarith) hp
      rw [e]; linarith
    · rw [hs1] at hgoal
      rw [e, if_pos hgoal]
      have : ag.alpha * 1 ≤ ag.alpha * (1 + ag.gamma * valueOf ag.qTable (getNextState s a)) :=
        mul_le_mul_of_nonneg_left (by linarith) ha0.le
      linarith
  refine ⟨⟨by rw [hal]; exact ha0, by rw [hal]; exact ha1, by rw [hga]; exact hg0, ?_⟩,
    ?_, hpos⟩
  · intro x
    by_cases hx : x = s
    · subst hx
      rw [e]; linarith
    · rw [hframe x hx]; exact hnn x
  · rintro (h19 | h23)
    · by_cases hx : (19 : Int) = s
      · subst hx
        exact Or.inl (hpos (Or.inl h19))
      · exact Or.inl (by rw [hframe 19 hx]; exact h19)
    · by_cases hx : (23 : Int) = s
      · subst hx
        exact Or.inr (hpos (Or.inl h23))
      · exact Or.inr (by rw [hframe 23 hx]; exact h23)

theorem whileLoop_at_terminal (ag : SARSA) (action : Int) (draws : List (ℚ × Int)) :
    whileLoop ag 24 action draws = some (ag, 24, action) := by
  cases draws with
  | nil => rfl
  | cons d rest => rfl

theorem whileLoop_reaches (draws : List (ℚ × Int)) :
    ∀ (ag ag1 : SARSA) (state action action1 : Int), TableShape ag.qTable →
      ValidState state → (∀ d ∈ draws, ValidAction d.2) → NonNegAgent ag → state ≠ 24 →
      whileLoop ag state action draws = some (ag1, 24, action1) → GoalSeen ag1 := by
  induction draws with
  | nil =>
    intro ag ag1 state action action1 _ _ _ _ hne h
    have e : state = 24 := (Prod.mk.inj (Prod.mk.inj (Option.some.inj h)).2).1
    exact absurd e hne
  | cons d rest ih =>
    intro ag ag1 state action action1 ht hs hd hP hne h
    obtain ⟨u, r⟩ := d
    have hr : ValidAction r := hd (u, r) (List.mem_cons_self _ _)
    have hrest : ∀ d ∈ rest, ValidAction d.2 := fun d hmem => hd d (List.mem_cons_of_mem _ hmem)
    have hterm : state ≠ GRID_SIZE * GRID_SIZE - 1 := hne
    obtain ⟨ag2, a2, hstep, ht2, -⟩ := stepLoopBody_spec ht hs action u hr
    obtain ⟨hP2, -, hpos⟩ := nonNeg_step ht hs hr hP hstep
    simp only [whileLoop, hterm, hstep, if_true, not_false_eq_true, ne_eq] at h
    by_cases hgoal : getNextState state action = 24
    · rw [hgoal, whileLoop_at_terminal] at h
      have e : ag2 = ag1 := (Prod.mk.inj (Option.some.inj h)).1
      subst e
      rcases pred_of_terminal hs hne action hgoal with rfl | rfl
      · exact Or.inl (hpos (Or.inr hgoal))
      · exact Or.inr (hpos (Or.inr hgoal))
    · exact ih ag2 ag1 _ a2 action1 ht2 (getNextState_valid hs action) hrest hP2 hgoal h

theorem mainLoop_reaches (episodes : List EpisodeDraws) :
    ∀ (ag ag1 : SARSA), TableShape ag.qTable → (∀ d ∈ episodes, ValidDraws d) →
      NonNegAgent ag → (∃ d ∈ episodes, d.start ≠ 24) →
      mainLoop ag episodes = some (ag1, true) → GoalSeen ag1 := by
  induction episodes with
  | nil =>
    intro ag ag1 _ _ _ hex _
    obtain ⟨d, hmem, -⟩ := hex
    exact absurd hmem (List.not_mem_nil d)
  | cons d rest ih =>
    intro ag ag1 ht hd hP hex h
    obtain ⟨hstart, hfirst, hsteps⟩ := hd d (List.mem_cons_self _ _)
    have hrest : ∀ d ∈ rest, ValidDraws d := fun d hmem => hd d (List.mem_cons_of_mem _ hmem)
    obtain ⟨a0, hc, hav, -, -⟩ := chooseAction_of_shape ht hstart d.first.1 hfirst
    obtain ⟨ag2, s2, a2, hloop, ht2, -, -, -, hP2⟩ :=
      whileLoop_invariant NonNegAgent
        (fun ag ag1 s a u r s1 a1 ht hs _ hr hP h => (nonNeg_step ht hs hr hP h).1)
        d.steps ag d.start a0 ht hstart hav hsteps hP
    by_cases hterm : s2 ≠ GRID_SIZE * GRID_SIZE - 1
    · simp only [mainLoop, hc, hloop, hterm, if_true, not_false_eq_true, ne_eq] at h
      exact absurd (Prod.mk.inj (Option.some.inj h)).2 (by decide)
    · simp only [mainLoop, hc, hloop, hterm, if_false] at h
      have hs2 : s2 = 24 := not_not.mp hterm
      by_cases hfirstStart : d.start ≠ 24
      · rw [hs2] at hloop
        have hseen : GoalSeen ag2 :=
          whileLoop_reaches d.steps ag ag2 d.start a0 a2 ht hstart hsteps hP hfirstStart hloop
        obtain ⟨ag3, done, hmain, -, -, hseen3⟩ :=
          mainLoop_invariant (fun ag => NonNegAgent ag ∧ GoalSeen ag)
            (fun ag ag1 s a u r s1 a1 ht hs _ hr hP h =>
              ⟨(nonNeg_step ht hs hr hP.1 h).1, (nonNeg_step ht hs hr hP.1 h).2.1 hP.2⟩)
            (fun ag hP => hP) rest (decayExplorationRate ag2) ht2 hrest ⟨hP2, hseen⟩
        rw [hmain] at h
        have e : ag3 = ag1 := (Prod.mk.inj (Option.some.inj h)).1
        rw [← e]
        exact hseen3
      · obtain ⟨d1, hmem, hne⟩ := hex
        rcases List.mem_cons.mp hmem with rfl | hmem1
        · exact absurd hne hfirstStart
        · exact ih (decayExplorationRate ag2) ag1 ht2 hrest hP2 ⟨d1, hmem1, hne⟩ h

theorem mainLoop_terminal_starts (n : Nat) :
    ∀ ag : SARSA, TableShape ag.qTable →
      ∃ ag1, mainLoop ag (List.replicate n terminalStartEpisode) = some (ag1, true) ∧
        ag1.qTable = ag.qTable := by
  induction n with
  | zero =>
    intro ag _
    exact ⟨ag, rfl, rfl⟩
  | succ k ih =>
    intro ag ht
    obtain ⟨a0, hc, -⟩ :=
      chooseAction_of_shape ht (show ValidState 24 by decide) (1 / 2)
        (show ValidAction 0 by decide)
    obtain ⟨ag1, hmain, htab⟩ := ih (decayExplorationRate ag) ht
    refine ⟨ag1, ?_, htab⟩
    have hc1 : chooseAction ag terminalStartEpisode.start terminalStartEpisode.first.1
        terminalStartEpisode.first.2 = some (a0, ag) := hc
    have hloop : whileLoop ag terminalStartEpisode.start a0 terminalStartEpisode.steps =
        some (ag, 24, a0) := rfl
    have hnot : ¬ ((24 : Int) ≠ GRID_SIZE * GRID_SIZE - 1) := by decide
    simp only [List.replicate_succ, mainLoop, hc1, hloop, hnot, if_false, hmain]

theorem mainAgent_nonNeg : NonNegAgent mainAgent :=
  ⟨by rw [show mainAgent.alpha = 1 / 2 from rfl]; norm_num,
    by rw [show mainAgent.alpha = 1 / 2 from rfl]; norm_num,
    by rw [show mainAgent.gamma = 9 / 10 from rfl]; norm_num,
    fun s => by rw [show mainAgent = SARSA.new (1 / 2) (9 / 10) (1 / 10) from rfl, new_valueOf]⟩

/-- C12 (as stated, refuted): when each of the 100 episodes of `main` draws
the terminal state 24 as its start, the run terminates and the final table is
still zero at states 24, 19 and 23. -/
theorem terminal_starts_leave_table_zero :
    (List.replicate numEpisodes terminalStartEpisode).length = 100 ∧
    (∀ d ∈ List.replicate numEpisodes terminalStartEpisode, ValidDraws d) ∧
    ∃ ag, mainLoop mainAgent (List.replicate numEpisodes terminalStartEpisode) =
        some (ag, true) ∧
      ¬ (0 < valueOf ag.qTable 24 ∨ 0 < valueOf ag.qTable 19 ∨ 0 < valueOf ag.qTable 23) := by
  refine ⟨rfl, ?_, ?_⟩
  · intro d hd
    rw [List.eq_of_mem_replicate hd]
    exact ⟨by decide, by decide, fun x hx => absurd hx (List.not_mem_nil x)⟩
  · obtain ⟨ag, hmain, htab⟩ := mainLoop_terminal_starts numEpisodes mainAgent mainAgent_shape
    refine ⟨ag, hmain, ?_⟩
    rw [htab, show mainAgent = SARSA.new (1 / 2) (9 / 10) (1 / 10) from rfl, new_valueOf,
      new_valueOf, new_valueOf]
    norm_num

/-- C12 (amended): for the agent of `main` and every 100 episodes of draws in
range under which the run terminates and of which at least one starts at a
non-terminal state, the final table has an entry strictly greater than 0 at
state 19 or at state 23. -/
theorem reward_reaches_predecessor (episodes : List EpisodeDraws)
    (_hlen : episodes.length = numEpisodes) (hd : ∀ d ∈ episodes, ValidDraws d)
    (hstart : ∃ d ∈ episodes, d.start ≠ 24) (ag : SARSA)
    (hrun : mainLoop mainAgent episodes = some (ag, true)) :
    0 < valueOf ag.qTable 19 ∨ 0 < valueOf ag.qTable 23 :=
  mainLoop_reaches episodes mainAgent ag mainAgent_shape hd mainAgent_nonNeg hstart hrun

theorem sampleEpisode_run (rest : List EpisodeDraws) :
    mainLoop mainAgent (sampleEpisode :: rest) =
      mainLoop (decayExplorationRate { mainAgent with qTable := rewardedTable }) rest := by
  have heps : (0 : ℚ) < mainAgent.epsilon := by
    rw [show mainAgent.epsilon = 1 / 10 from rfl]; norm_num
  have hc : chooseAction mainAgent sampleEpisode.start sampleEpisode.first.1
      sampleEpisode.first.2 = some (3, mainAgent) := by
    show chooseAction mainAgent 23 0 3 = some (3, mainAgent)
    unfold chooseAction
    rw [if_pos heps]
  have hc2 : chooseAction mainAgent 24 0 3 = some (3, mainAgent) := by
    unfold chooseAction
    rw [if_pos heps]
  have hupd : updateQTable mainAgent 23 3 1 24 3 =
      some { mainAgent with qTable := rewardedTable } := mainAgent_first_reward
  have hstep : stepLoopBody mainAgent 23 3 0 3 =
      some ({ mainAgent with qTable := rewardedTable }, 24, 3) := by
    have hn : getNextState 23 3 = 24 := by decide
    have hterm : (24 : Int) = GRID_SIZE * GRID_SIZE - 1 := rfl
    simp only [stepLoopBody, hn, hc2, if_pos hterm, hupd]
  have hloop : whileLoop mainAgent sampleEpisode.start 3 sampleEpisode.steps =
      some ({ mainAgent with qTable := rewardedTable }, 24, 3) := by
    show whileLoop mainAgent 23 3 [(0, 3)] = _
    have hne : (23 : Int) ≠ GRID_SIZE * GRID_SIZE - 1 := by decide
    simp only [whileLoop, hne, hstep, if_true, not_false_eq_true, ne_eq]
  have hnot : ¬ ((24 : Int) ≠ GRID_SIZE * GRID_SIZE - 1) := by decide
  simp only [mainLoop, hc, hloop, hnot, if_false]

theorem reward_reaches_predecessor_witness :
    (sampleEpisode :: List.replicate 99 terminalStartEpisode).length = numEpisodes ∧
    (∀ d ∈ sampleEpisode :: List.replicate 99 terminalStartEpisode, ValidDraws d) ∧
    (∃ d ∈ sampleEpisode :: List.replicate 99 terminalStartEpisode, d.start ≠ 24) ∧
    ∃ ag, mainLoop mainAgent (sampleEpisode :: List.replicate 99 terminalStartEpisode) =
        some (ag, true) ∧
      (0 < valueOf ag.qTable 19 ∨ 0 < valueOf ag.qTable 23) := by
  have hvalid : ∀ d ∈ sampleEpisode :: List.replicate 99 terminalStartEpisode,
      ValidDraws d := by
    intro d hd
    rcases List.mem_cons.mp hd with rfl | hrest
    · exact sampleEpisode_valid _ (List.mem_singleton.mpr rfl)
    · rw [List.eq_of_mem_replicate hrest]
      exact ⟨by decide, by decide, fun x hx => absurd hx (List.not_mem_nil x)⟩
  have hstart : ∃ d ∈ sampleEpisode :: List.replicate 99 terminalStartEpisode,
      d.start ≠ 24 :=
    ⟨sampleEpisode, List.mem_cons_self _ _, by decide⟩
  obtain ⟨ag, hmain, -⟩ := mainLoop_terminal_starts 99
    (decayExplorationRate { mainAgent with qTable := rewardedTable }) rewardedTable_shape
  have hrun : mainLoop mainAgent (sampleEpisode :: List.replicate 99 terminalStartEpisode) =
      some (ag, true) := by rw [sampleEpisode_run, hmain]
  exact ⟨rfl, hvalid, hstart, ag, hrun,
    reward_reaches_predecessor (sampleEpisode :: List.replicate 99 terminalStartEpisode) rfl
      hvalid hstart ag hrun⟩

/-! ## Greedy play on a table of zeros -/

theorem set_same {α : Type} : ∀ (l : List α) (i : Nat) (a : α), l[i]? = some a → l.set i a = l
  | [], _, _, h => by simp at h
  | x :: xs, 0, a, h => by
    simp only [List.getElem?_cons_zero, Option.some.injEq] at h
    rw [List.set_cons_zero, h]
  | x :: xs, i + 1, a, h => by
    simp only [List.getElem?_cons_succ] at h
    rw [List.set_cons_succ, set_same xs i a h]

theorem addToCell_zero {t t1 : List (List ℚ)} {row col : Int}
    (h : addToCell t row col 0 = some t1) : t1 = t := by
  obtain ⟨cells, x, -, -, hcells, hx, rfl⟩ := addToCell_eq_some h
  rw [add_zero, set_same cells _ x hx, set_same t _ cells hcells]

theorem up_facts {s : Int} (hs : ValidState s) (hne : s ≠ 24) :
    getNextState s 0 ≠ 24 ∧ getNextState s 0 / 5 = max (s / 5 - 1) 0 ∧
    getNextState s 0 % 5 = s % 5 := by
  obtain ⟨h0, h1⟩ := hs
  interval_cases s <;> first | exact absurd rfl hne | decide

theorem greedy_choose {ag : SARSA} (ht : TableShape ag.qTable)
    (hz : ∀ s : Int, valueOf ag.qTable s = 0) {s : Int} (hs : ValidState s) {u : ℚ}
    (hu : ¬ u < ag.epsilon) (r : Int) : chooseAction ag s u r = some (0, ag) := by
  have hb : getBestAction ag s = some 0 := by
    rw [getBestAction_eq ht hs]
    simp only [hz, gt_iff_lt, lt_self_iff_false, if_false]
  simp only [chooseAction, hu, if_false, hb]

theorem greedy_step {ag : SARSA} (ht : TableShape ag.qTable)
    (hz : ∀ s : Int, valueOf ag.qTable s = 0) {s : Int} (hs : ValidState s) (hne : s ≠ 24)
    {u : ℚ} (hu : ¬ u < ag.epsilon) (r : Int) :
    stepLoopBody ag s 0 u r = some (ag, getNextState s 0, 0) := by
  have hn : ValidState (getNextState s 0) := getNextState_valid hs 0
  have hnt : ¬ (getNextState s 0 = GRID_SIZE * GRID_SIZE - 1) := (up_facts hs hne).1
  have hc := greedy_choose ht hz hn hu r
  have hupd : updateQTable ag s 0 0 (getNextState s 0) 0 = some ag := by
    obtain ⟨a, b, c, d⟩ := coords_of_valid hs
    obtain ⟨t1, hadd⟩ := addToCell_of_shape ht a b c d 0
    have ht1 : t1 = ag.qTable := addToCell_zero hadd
    have hd : ag.alpha * (0 + ag.gamma * 0 - 0) = 0 := by ring
    simp only [updateQTable, readCell_valid ht hs, readCell_valid ht hn, hz, hd, hadd, ht1]
  simp only [stepLoopBody, hc, if_neg hnt, hupd]

theorem greedy_whileLoop (draws : List (ℚ × Int)) :
    ∀ (ag : SARSA) (s : Int), TableShape ag.qTable → (∀ x : Int, valueOf ag.qTable x = 0) →
      ValidState s → s ≠ 24 → (∀ d ∈ draws, ¬ d.1 < ag.epsilon) →
      whileLoop ag s 0 draws =
        some (ag, max (s / 5 - (draws.length : Int)) 0 * 5 + s % 5, 0) ∧
      max (s / 5 - (draws.length : Int)) 0 * 5 + s % 5 ≠ 24 := by
  induction draws with
  | nil =>
    intro ag s _ _ hs hne _
    have e : max (s / 5 - (([] : List (ℚ × Int)).length : Int)) 0 * 5 + s % 5 = s := by
      obtain ⟨h0, h1⟩ := hs
      simp only [List.length_nil, Nat.cast_zero, sub_zero]
      omega
    rw [e]
    exact ⟨rfl, hne⟩
  | cons d rest ih =>
    intro ag s ht hz hs hne hd
    obtain ⟨u, r⟩ := d
    have hu : ¬ u < ag.epsilon := hd (u, r) (List.mem_cons_self _ _)
    have hrest : ∀ d ∈ rest, ¬ d.1 < ag.epsilon := fun d hmem => hd d (List.mem_cons_of_mem _ hmem)
    obtain ⟨hup, hrow, hcol⟩ := up_facts hs hne
    obtain ⟨hloop, hfinal⟩ := ih ag (getNextState s 0) ht hz (getNextState_valid hs 0) hup hrest
    have hterm : s ≠ GRID_SIZE * GRID_SIZE - 1 := hne
    have e : max (s / 5 - (((u, r) :: rest).length : Int)) 0 * 5 + s % 5 =
        max (getNextState s 0 / 5 - (rest.length : Int)) 0 * 5 + getNextState s 0 % 5 := by
      obtain ⟨h0, h1⟩ := hs
      rw [hrow, hcol, List.length_cons]
      push_cast
      omega
    rw [e]
    refine ⟨?_, hfinal⟩
    simp only [whileLoop, hterm, greedy_step ht hz hs hne hu r, hloop, if_true,
      not_false_eq_true, ne_eq]

/-- C18: from the all-zero table of a new agent and a non-terminal start
state, when every real draw is at least epsilon: the first `chooseAction`
selects Up, every pass of the step loop at a non-terminal state returns the
agent unchanged (table all zero) with Up as the next action, after
`draws.length` passes the state is `max (row - draws.length) 0 * 5 + col`, and
this state is not 24. -/
theorem greedy_never_reaches_goal (alpha gamma epsilon : ℚ) (start : Int)
    (hs : ValidState start) (hne : start ≠ 24) (u0 : ℚ) (r0 : Int) (hu0 : ¬ u0 < epsilon)
    (draws : List (ℚ × Int)) (hdraws : ∀ d ∈ draws, ¬ d.1 < epsilon) :
    chooseAction (SARSA.new alpha gamma epsilon) start u0 r0 =
      some (0, SARSA.new alpha gamma epsilon) ∧
    (∀ (s : Int) (u : ℚ) (r : Int), ValidState s → s ≠ 24 → ¬ u < epsilon →
      stepLoopBody (SARSA.new alpha gamma epsilon) s 0 u r =
        some (SARSA.new alpha gamma epsilon, getNextState s 0, 0)) ∧
    whileLoop (SARSA.new alpha gamma epsilon) start 0 draws =
      some (SARSA.new alpha gamma epsilon,
        max (start / 5 - (draws.length : Int)) 0 * 5 + start % 5, 0) ∧
    max (start / 5 - (draws.length : Int)) 0 * 5 + start % 5 ≠ 24 ∧
    (∀ s : Int, valueOf (SARSA.new alpha gamma epsilon).qTable s = 0) := by
  have ht : TableShape (SARSA.new alpha gamma epsilon).qTable :=
    tableShape_of_rows rfl rfl rfl rfl rfl
  have hz := new_valueOf alpha gamma epsilon
  obtain ⟨hloop, hfinal⟩ := greedy_whileLoop draws (SARSA.new alpha gamma epsilon) start ht hz
    hs hne hdraws
  exact ⟨greedy_choose ht hz hs hu0 r0,
    fun s u r hs1 hne1 hu => greedy_step ht hz hs1 hne1 hu r, hloop, hfinal, hz⟩

theorem greedy_never_reaches_goal_witness :
    ValidState 23 ∧ (23 : Int) ≠ 24 ∧ ¬ ((1 : ℚ) / 2 < 1 / 10) ∧
    whileLoop (SARSA.new (1 / 2) (9 / 10) (1 / 10)) 23 0 [(1 / 2, 3), (1 / 2, 3)] =
      some (SARSA.new (1 / 2) (9 / 10) (1 / 10),
        max (23 / 5 - (([(1 / 2, 3), (1 / 2, 3)] : List (ℚ × Int)).length : Int)) 0 * 5 +
          23 % 5, 0) :=
  ⟨by decide, by decide, by norm_num,
    (greedy_never_reaches_goal (1 / 2) (9 / 10) (1 / 10) 23 (by decide) (by decide) (1 / 2) 3
      (by norm_num) [(1 / 2, 3), (1 / 2, 3)] (by
        intro d hd
        simp only [List.mem_cons, List.mem_singleton, List.not_mem_nil, or_false,
          or_self] at hd
        rw [hd]
        norm_num)).2.2.1⟩

/-! ## Termination of the run -/

theorem roundHalfEven_intCast (k : Int) : roundHalfEven (k : ℚ) = k := by
  unfold roundHalfEven
  rw [Int.floor_intCast, sub_self, if_pos (by norm_num)]

theorem zpow_split (e : Int) (k : Int) : (2 : ℚ) ^ (e + k) = 2 ^ k * 2 ^ e := by
  rw [add_comm, zpow_add₀ (by norm_num : (2 : ℚ) ≠ 0)]

theorem roundMagnitude_zero : roundMagnitude 0 = 0 := by
  unfold roundMagnitude
  rw [zero_div, show ((0 : ℚ)) = ((0 : Int) : ℚ) by norm_num, roundHalfEven_intCast]
  norm_num

theorem roundFloat_of_binade {x : ℚ} (e : Int) (h1 : (2 : ℚ) ^ e ≤ x)
    (h2 : x < (2 : ℚ) ^ (e + 1)) (he : -126 ≤ e) :
    roundFloat x = roundHalfEven (x / 2 ^ (e - 23)) * 2 ^ (e - 23) := by
  have hpos : 0 < x := lt_of_lt_of_le (by positivity) h1
  have hlog : Int.log 2 x = e := by
    apply le_antisymm
    · have := (Int.lt_zpow_iff_log_lt (R := ℚ) (b := 2) (by norm_num) hpos).mp
        (by simpa using h2)
      omega
    · exact (Int.zpow_le_iff_le_log (R := ℚ) (b := 2) (by norm_num) hpos).mp
        (by simpa using h1)
  unfold roundFloat roundMagnitude floatUlp
  rw [if_pos hpos.le, hlog, max_eq_left he]

theorem roundFloat_representable (k e : Int) (hk1 : 8388608 ≤ k) (hk2 : k < 16777216)
    (he : -126 ≤ e) : roundFloat ((k : ℚ) * 2 ^ (e - 23)) = (k : ℚ) * 2 ^ (e - 23) := by
  have hu : (0 : ℚ) < 2 ^ (e - 23) := by positivity
  have hlow : (2 : ℚ) ^ e = ((8388608 : Int) : ℚ) * 2 ^ (e - 23) := by
    rw [show e = (e - 23) + 23 by ring, zpow_split]
    norm_num
  have hhigh : (2 : ℚ) ^ (e + 1) = ((16777216 : Int) : ℚ) * 2 ^ (e - 23) := by
    rw [show e + 1 = (e - 23) + 24 by ring, zpow_split]
    norm_num
  rw [roundFloat_of_binade e
    (by rw [hlow]; exact mul_le_mul_of_nonneg_right (by exact_mod_cast hk1) hu.le)
    (by rw [hhigh]; exact mul_lt_mul_of_pos_right (by exact_mod_cast hk2) hu) he,
    mul_div_assoc, div_self hu.ne', mul_one, roundHalfEven_intCast]

theorem roundFloat_zero : roundFloat 0 = 0 := by
  unfold roundFloat
  rw [if_pos (le_refl 0), roundMagnitude_zero]

theorem roundFloat_one : roundFloat 1 = 1 := by
  have h := roundFloat_representable 8388608 0 (by norm_num) (by norm_num) (by norm_num)
  norm_num at h
  exact h

theorem roundFloat_small1 : roundFloat (1 / 16777216) = 1 / 16777216 := by
  have h := roundFloat_representable 8388608 (-24) (by norm_num) (by norm_num) (by norm_num)
  norm_num at h
  exact h

theorem roundFloat_small2 : roundFloat (1 / 33554432) = 1 / 33554432 := by
  have h := roundFloat_representable 8388608 (-25) (by norm_num) (by norm_num) (by norm_num)
  norm_num at h
  exact h

theorem roundFloat_tie : roundFloat (33554431 / 33554432) = 1 := by
  rw [roundFloat_of_binade (-1) (by norm_num) (by norm_num) (by norm_num)]
  have hy : (33554431 / 33554432 : ℚ) / 2 ^ ((-1 : Int) - 23) = 33554431 / 2 := by norm_num
  have hf : ⌊(33554431 / 2 : ℚ)⌋ = 16777215 := by
    rw [Int.floor_eq_iff]; norm_num
  rw [hy]
  unfold roundHalfEven
  rw [hf]
  norm_num

theorem addToCellRnd_eq (rnd : ℚ → ℚ) {t : List (List ℚ)} {row col : Int} {x : ℚ} (d : ℚ)
    (hx : readCell t row col = some x) :
    addToCellRnd rnd t row col d = addToCell t row col (rnd (x + d) - x) := by
  unfold readCell at hx
  unfold addToCellRnd addToCell
  split_ifs at hx ⊢ with h
  cases hrow : t[row.toNat]? with
  | none => rfl
  | some cells =>
    rw [hrow] at hx
    simp only at hx ⊢
    rw [hx]
    simp only [add_sub_cancel]

theorem updateQTableRnd_of_shape (rnd : ℚ → ℚ) {ag : SARSA} (ht : TableShape ag.qTable)
    {state nextState : Int} (hs : ValidState state) (hn : ValidState nextState)
    (action nextAction : Int) (reward : ℚ) :
    ∃ ag1, updateQTableRnd rnd ag state action reward nextState nextAction = some ag1 ∧
      TableShape ag1.qTable ∧
      valueOf ag1.qTable state = rnd (valueOf ag.qTable state +
        rnd (ag.alpha * rnd (rnd (reward + rnd (ag.gamma * valueOf ag.qTable nextState)) -
          valueOf ag.qTable state))) := by
  obtain ⟨a, b, c, d⟩ := coords_of_valid hs
  have hread := readCell_valid ht hs
  have hbridge := addToCellRnd_eq rnd
    (rnd (ag.alpha * rnd (rnd (reward + rnd (ag.gamma * valueOf ag.qTable nextState)) -
      valueOf ag.qTable state))) hread
  obtain ⟨t, hadd⟩ := addToCell_of_shape ht a b c d
    (rnd (valueOf ag.qTable state +
      rnd (ag.alpha * rnd (rnd (reward + rnd (ag.gamma * valueOf ag.qTable nextState)) -
        valueOf ag.qTable state))) - valueOf ag.qTable state)
  refine ⟨{ ag with qTable := t }, ?_, addToCell_shape ht hadd, ?_⟩
  · simp only [updateQTableRnd, hread, readCell_valid ht hn, hbridge, hadd]
  · obtain ⟨x, hx, hx1⟩ := addToCell_read_same hadd
    rw [hread] at hx
    have hx2 : valueOf ag.qTable state = x := Option.some.inj hx
    simp only [valueOf, hx1, Option.getD_some]
    rw [← hx2]
    show valueOf ag.qTable state + (_ - valueOf ag.qTable state) = _
    rw [add_sub_cancel]

theorem updateQTableRnd_id (ag : SARSA) (state action : Int) (reward : ℚ)
    (nextState nextAction : Int) :
    updateQTableRnd (fun x => x) ag state action reward nextState nextAction =
      updateQTable ag state action reward nextState nextAction := rfl

theorem nearOneTable_shape : TableShape nearOneTable :=
  tableShape_of_rows rfl rfl rfl rfl rfl

/-- C4 (as stated, refuted on `float`): on the table whose entry of state 23 is
`1 - 2^-24`, with `alpha = 1/2`, reward 1 and `nextState = 24` of entry 0, the
`float` update stores 1, while `V + alpha * (r + gamma * V(nextState) - V)` is
`1 - 2^-25`. -/
theorem updateQTable_float_differs :
    TableShape nearOneTable ∧ ValidState 23 ∧ ValidState 24 ∧
    ∃ ag1, updateQTableRnd roundFloat { mainAgent with qTable := nearOneTable } 23 3 1 24 0 =
        some ag1 ∧
      valueOf ag1.qTable 23 = 1 ∧
      valueOf nearOneTable 23 + mainAgent.alpha *
        (1 + mainAgent.gamma * valueOf nearOneTable 24 - valueOf nearOneTable 23) =
        33554431 / 33554432 ∧
      valueOf ag1.qTable 23 ≠ valueOf nearOneTable 23 + mainAgent.alpha *
        (1 + mainAgent.gamma * valueOf nearOneTable 24 - valueOf nearOneTable 23) := by
  have h23 : valueOf nearOneTable 23 = 16777215 / 16777216 := rfl
  have h24 : valueOf nearOneTable 24 = 0 := rfl
  have ha : mainAgent.alpha = 1 / 2 := rfl
  have hg : mainAgent.gamma = 9 / 10 := rfl
  have hexact : valueOf nearOneTable 23 + mainAgent.alpha *
      (1 + mainAgent.gamma * valueOf nearOneTable 24 - valueOf nearOneTable 23) =
      33554431 / 33554432 := by
    rw [h23, h24, ha, hg]; norm_num
  obtain ⟨ag1, h, -, hv⟩ :=
    @updateQTableRnd_of_shape roundFloat { mainAgent with qTable := nearOneTable }
      nearOneTable_shape 23 24 (by decide) (by decide) 3 0 1
  have hstored : valueOf ag1.qTable 23 = 1 := by
    rw [hv]
    show roundFloat (valueOf nearOneTable 23 + roundFloat (mainAgent.alpha *
      roundFloat (roundFloat (1 + roundFloat (mainAgent.gamma * valueOf nearOneTable 24)) -
        valueOf nearOneTable 23))) = 1
    rw [h23, h24, ha, hg, mul_zero, roundFloat_zero, add_zero, roundFloat_one,
      show (1 : ℚ) - 16777215 / 16777216 = 1 / 16777216 by norm_num, roundFloat_small1,
      show (1 : ℚ) / 2 * (1 / 16777216) = 1 / 33554432 by norm_num, roundFloat_small2,
      show (16777215 : ℚ) / 16777216 + 1 / 33554432 = 33554431 / 33554432 by norm_num,
      roundFloat_tie]
  refine ⟨nearOneTable_shape, by decide, by decide, ag1, h, hstored, hexact, ?_⟩
  rw [hstored, hexact]
  norm_num

/-- C4 (amended): on a 5x5 table, for valid `state` and `nextState` (equal or
not), any reward and any `action`, `nextAction`, `updateQTable` succeeds and
the entry of `state` afterwards is
`V(state) + alpha * (reward + gamma * V(nextState) - V(state))` over the values
before the call with the result of each of the five `float` operations rounded
(`rnd`); when nothing is rounded the entry is the exact value of that
expression; the result does not depend on `action` or `nextAction`. -/
theorem updateQTable_entry_rounded (rnd : ℚ → ℚ) (ag : SARSA) (ht : TableShape ag.qTable)
    (state nextState : Int) (hs : ValidState state) (hn : ValidState nextState) (reward : ℚ)
    (action nextAction : Int) :
    (∃ ag1, updateQTableRnd rnd ag state action reward nextState nextAction = some ag1 ∧
      valueOf ag1.qTable state = rnd (valueOf ag.qTable state +
        rnd (ag.alpha * rnd (rnd (reward + rnd (ag.gamma * valueOf ag.qTable nextState)) -
          valueOf ag.qTable state)))) ∧
    (∃ ag1, updateQTableRnd (fun x => x) ag state action reward nextState nextAction =
        some ag1 ∧
      updateQTable ag state action reward nextState nextAction = some ag1 ∧
      valueOf ag1.qTable state = valueOf ag.qTable state +
        ag.alpha * (reward + ag.gamma * valueOf ag.qTable nextState -
          valueOf ag.qTable state)) ∧
    (∀ action2 nextAction2 : Int,
      updateQTableRnd rnd ag state action2 reward nextState nextAction2 =
        updateQTableRnd rnd ag state action reward nextState nextAction) := by
  obtain ⟨ag1, h, -, hv⟩ := updateQTableRnd_of_shape rnd ht hs hn action nextAction reward
  obtain ⟨ag2, h2, -, -, -, -, hv2⟩ := updateQTable_of_shape ht hs hn action nextAction reward
  exact ⟨⟨ag1, h, hv⟩, ⟨ag2, by rw [updateQTableRnd_id]; exact h2, h2, hv2⟩, fun _ _ => rfl⟩

theorem updateQTable_entry_rounded_witness :
    TableShape nearOneTable ∧ ValidState 23 ∧ ValidState 24 ∧
    ∃ ag1, updateQTableRnd roundFloat { mainAgent with qTable := nearOneTable } 23 3 1 24 0 =
        some ag1 ∧
      valueOf ag1.qTable 23 = roundFloat (valueOf nearOneTable 23 +
        roundFloat (mainAgent.alpha * roundFloat (roundFloat (1 +
          roundFloat (mainAgent.gamma * valueOf nearOneTable 24)) -
            valueOf nearOneTable 23))) :=
  ⟨nearOneTable_shape, by decide, by decide,
    (updateQTable_entry_rounded roundFloat { mainAgent with qTable := nearOneTable }
      nearOneTable_shape 23 24 (by decide) (by decide) 1 3 0).1⟩

end Gridworld
